import Mathlib

/-! SubC code generator (`P4/cg.c`): embedding and verified properties

The code generator walks a SubC abstract syntax tree and appends lines of
68000 assembly text to an emission buffer.  This file embeds `cg.c` as pure
functions over an explicit state and proves properties of the emitted text.

Modelling conventions

* The two text streams of `Emit` are lists of lines; `emitCode` / `emitData`
  append one line.  Capacity limits (`CODESIZE`, `DATASIZE`, `LINESIZE`) and
  allocation failure are outside the model.
* `sprintf` with `%s` is string concatenation and `%d` is the decimal rendering
  of an integer (`toString`).
* The function-static counter `labnum` of `cgLabel` is a field of the state.  It
  is a C `int`, a signed 32-bit value.  Past `INT_MAX` the C standard leaves
  `labnum += LABELINC` undefined; the model takes the two's-complement result
  (`wrap32`), which is what the compiled code computes on the usual targets.
* A call that ends the process (`assert` failing, the `utDie…` family, which
  print and then `exit`) yields `Res.fatal`, carrying the state reached.
  Assertions are enabled (`NDEBUG` is not defined anywhere in the sources).
* The AST types come from `ast.h`, which is not part of the sources at hand; they
  are reconstructed from the fields `cg.c` reads.  A chain of nodes linked by
  `next` is a list.
-/

namespace SubC

/-! ## Abstract syntax -/

/-- Binary operator tags, as enumerated by `astBOPtoStr` in `P3/visitExp.c`. -/
inductive BOP where
  | BOPADD | BOPBAD | BOPDIV | BOPEEQ | BOPGE | BOPGT
  | BOPLE | BOPLT | BOPMUL | BOPNE | BOPNONE | BOPSUB
  deriving DecidableEq, Repr

/-- An operand node (`lhs`, `rhs`, `nns`): its `kind` tag with the payload read
by `cg.c` (`lex`, `val`, `txt`). -/
inductive AstNns where
  | ASTNAM (lex : String)
  | ASTNUM (val : Int)
  | ASTSTR (txt : String)
  deriving DecidableEq, Repr

/-- Expression node: `lhs` and `rhs` may be NULL. -/
structure AstExp where
  lhs : Option AstNns
  bop : BOP
  rhs : Option AstNns
  deriving DecidableEq, Repr

/-- One argument of a call. -/
structure AstArg where
  nns : AstNns
  deriving DecidableEq, Repr

/-- Call node: `nam` is the lexeme of the callee, `args` the argument chain. -/
structure AstCall where
  nam : String
  args : List AstArg
  deriving DecidableEq, Repr

/-- The `eoc` field of an assignment: a node of kind `ASTCALL`, or anything else,
which `cgStm` treats as an expression. -/
inductive AstEoc where
  | ASTCALL (call : AstCall)
  | ASTEXP (exp : AstExp)
  deriving DecidableEq, Repr

/-- Statement node.  `other` stands for a node whose kind tag is none of the four
that `cgStm` dispatches on. -/
inductive AstStm where
  | ASTIF (exp : AstExp) (block : List AstStm)
  | ASTASG (nam : String) (eoc : AstEoc)
  | ASTRET (exp : AstExp)
  | ASTWHILE (exp : AstExp) (block : List AstStm)
  | other (kind : Nat)

/-- Body of a function: its statement chain. -/
structure AstBody where
  stms : List AstStm

/-- Function node: name, declared parameters and locals (read by `layBuild`), and
body. -/
structure AstFun where
  nam : String
  pars : List String
  vars : List String
  body : AstBody

/-- Program node: the chain of functions. -/
structure AstProg where
  funs : List AstFun

/-! ## State -/

/-- Layout table, seen through the two reads `cg.c` performs on it: the row index
returned by `layFindVarParIdx` (0 when there is no row) and the `off` field of a
row.  `lay.c` is not part of the sources at hand, so both are parameters. -/
structure Lay where
  findVarParIdx : String → String → Nat
  off : Nat → Int

/-- Emission buffer of `emit.h`: the code and data streams, as lists of lines. -/
structure Emit where
  codeBuf : List String
  dataBuf : List String
  deriving DecidableEq, Repr

/-- State of one run: the `Cg` struct (`lay`, `emit`), the static `labnum` of
`cgLabel`, and `issued`, the history of the texts returned by `cgLabel` so far
(not a program variable; it is recorded so that properties of the label sequence
can be stated). -/
structure CgState where
  lay : Lay
  emit : Emit
  labnum : Int
  issued : List String

/-- How a run ends early: an `assert` of the given source file, line and function
whose condition (given as its source text) is false, or a `utDie…` call with the
text it prints. -/
inductive Fatal where
  | assertFailed (file : String) (line : Nat) (func : String) (cond : String)
  | die (report : String)
  deriving DecidableEq, Repr

/-- Outcome of a generator function: normal return with the new state, or the
process ended with the state reached at that point. -/
inductive Res where
  | ok (s : CgState)
  | fatal (e : Fatal) (s : CgState)

/-- Sequencing: run `f` on the state of a normal return, stop at a fatal one. -/
def Res.andThen (r : Res) (f : CgState → Res) : Res :=
  match r with
  | .ok s => f s
  | .fatal e s => .fatal e s

/-- The state carried by an outcome. -/
def Res.state : Res → CgState
  | .ok s => s
  | .fatal _ s => s

/-- Whether the outcome is a normal return. -/
def Res.isOk : Res → Bool
  | .ok _ => true
  | .fatal _ _ => false

/-! ## Collaborators not among the sources -/

/-- Modelled from the spec: `emitCode` of `emit.c` (only `emit.h` is at hand)
appends one line to the code stream. -/
def emitCode (line : String) (s : CgState) : CgState :=
  { s with emit := { s.emit with codeBuf := s.emit.codeBuf ++ [line] } }

/-- Modelled from the spec: `emitData` of `emit.c` appends one line to the data
stream. -/
def emitData (line : String) (s : CgState) : CgState :=
  { s with emit := { s.emit with dataBuf := s.emit.dataBuf ++ [line] } }

/-- Read of `layFindVarParIdx(lay, funnam, nam)`. -/
def layFindVarParIdx (lay : Lay) (funnam nam : String) : Nat :=
  lay.findVarParIdx funnam nam

/-- Modelled from the spec: `astCountArgs` of `ast.c` counts the arguments of a
call. -/
def astCountArgs (args : List AstArg) : Nat := args.length

/-- Modelled from the spec: `astFindArg` of `ast.c` returns argument number
`argnum`, counted from 1 in declaration order, or NULL. -/
def astFindArg (args : List AstArg) (argnum : Nat) : Option AstArg :=
  match argnum with
  | 0 => none
  | n + 1 => args.get? n

/-- Report of `utDie2Str` (`ut.c`): the text printed before `utPause` ends the
process with `exit`. -/
def utDie2Str (func msg : String) : Fatal :=
  .die ("\n\nERROR: " ++ func ++ ": " ++ msg ++ " \n\n")

/-- Modelled from the spec: `utDie5Str` is called by `cgNam` but is not in the
`ut.c` at hand; like `utDie2Str` … `utDie4Str` it prints the function name and
its message strings and ends the process. -/
def utDie5Str (func msg1 msg2 msg3 msg4 : String) : Fatal :=
  .die ("\n\nERROR: " ++ func ++ ": " ++ msg1 ++ " " ++ msg2 ++ " " ++ msg3 ++ " " ++ msg4
    ++ " \n\n")

/-! ## `cg.c` -/

/-- The increment `LABELINC`. -/
def LABELINC : Int := 10

/-- The initial value of the static `labnum`. -/
def labnumInit : Int := 10

/-- Truncation of an integer to a signed 32-bit value. -/
def wrap32 (x : Int) : Int := (x + 2147483648) % 4294967296 - 2147483648

/-- `cgLabel`: advance the `int` `labnum` by `LABELINC` (in 32 bits) and return
`"L%d"` of the new value. -/
def cgLabel (s : CgState) : String × CgState :=
  let labnum := wrap32 (s.labnum + LABELINC)
  let line := "L" ++ toString labnum
  (line, { s with labnum := labnum, issued := s.issued ++ [line] })

/-- `cgAsg`: store D0 into the variable `varnam` of `funnam`. -/
def cgAsg (funnam varnam : String) (s : CgState) : Res :=
  let varidx := layFindVarParIdx s.lay funnam varnam
  if varidx = 0 then .fatal (.assertFailed "cg.c" 31 "cgAsg" "varidx != 0") s
  else
    let varoff := s.lay.off varidx
    .ok (emitCode ("\t " ++ "MOVE.L" ++ " \t " ++ "D0, (" ++ toString varoff ++ ",A6)") s)

/-- `cgBranch`: the 0/1 materialisation after a compare, for the branch mnemonic
`cond`. -/
def cgBranch (cond : String) (s : CgState) : CgState :=
  let (truelabel, s) := cgLabel s
  let s := emitCode ("\t " ++ cond ++ " \t " ++ truelabel) s
  let s := emitCode ("\t " ++ "CLR.L" ++ " \t " ++ "D0") s
  let (exitlabel, s) := cgLabel s
  let s := emitCode ("\t " ++ "BRA" ++ " \t " ++ exitlabel) s
  let s := emitCode (truelabel ++ ":") s
  let s := emitCode ("\t " ++ "MOVE.L" ++ " \t " ++ "#1, D0") s
  emitCode (exitlabel ++ ":") s

/-- `cgBop`: code for the operator connecting D0 and D1. -/
def cgBop (bop : BOP) (s : CgState) : CgState :=
  if bop = .BOPADD then emitCode ("\t " ++ "ADD.L" ++ " \t " ++ "D1, D0") s
  else if bop = .BOPMUL then emitCode ("\t " ++ "MULS" ++ " \t " ++ "D1, D0") s
  else if bop = .BOPSUB then emitCode ("\t " ++ "SUB.L" ++ " \t " ++ "D1, D0") s
  else
    let s := emitCode ("\t " ++ "CMP.L" ++ " \t " ++ "D1, D0") s
    if bop = .BOPLT then cgBranch "BLT" s
    else if bop = .BOPLE then cgBranch "BLE" s
    else if bop = .BOPEEQ then cgBranch "BEQ" s
    else if bop = .BOPNE then cgBranch "BNE" s
    else if bop = .BOPGE then cgBranch "BGE" s
    else if bop = .BOPGT then cgBranch "BGT" s
    else s

/-- One iteration of the argument loop of `cgCall`: push the argument `astarg`. -/
def cgCallArg (funnam : String) (astarg : AstArg) (s : CgState) : Res :=
  match astarg.nns with
  | .ASTNAM lex =>
    let argidx := layFindVarParIdx s.lay funnam lex
    if argidx = 0 then .fatal (.assertFailed "cg.c" 200 "cgCall" "argidx != 0") s
    else
      let argoff := s.lay.off argidx
      .ok (emitCode ("\t " ++ "MOVE.L" ++ " \t " ++ "(" ++ toString argoff ++ ",A6)"
        ++ ", -(A7)") s)
  | .ASTNUM val =>
    .ok (emitCode ("\t " ++ "MOVE.L" ++ " \t " ++ "#" ++ toString val ++ ", -(A7)") s)
  | .ASTSTR txt =>
    let (datalabel, s) := cgLabel s
    let s := emitData (datalabel ++ ":") s
    let s := emitData ("\t " ++ "DC.B" ++ " \t '" ++ txt ++ "',0") s
    let s := emitCode ("\t " ++ "LEA" ++ " \t " ++ datalabel ++ ", A0") s
    .ok (emitCode ("\t " ++ "MOVE.L" ++ " \t " ++ "A0, " ++ "-(A7)") s)

/-- The argument loop of `cgCall`, `for (argnum = …; argnum >= 1; --argnum)`,
entered with the current value of `argnum`. -/
def cgCallArgs (funnam : String) (args : List AstArg) : Nat → CgState → Res
  | 0, s => .ok s
  | argnum + 1, s =>
    match astFindArg args (argnum + 1) with
    | none => .fatal (.assertFailed "cg.c" 191 "cgCall" "astarg") s
    | some astarg => (cgCallArg funnam astarg s).andThen (cgCallArgs funnam args argnum)

/-- `cgCall`: push the arguments right to left, branch to the callee, pop the
arguments. -/
def cgCall (funnam : String) (astcall : AstCall) (s : CgState) : Res :=
  let callee := astcall.nam
  let numarg := astCountArgs astcall.args
  (cgCallArgs funnam astcall.args numarg s).andThen fun s =>
    let s := emitCode ("\t " ++ "BSR" ++ " \t" ++ callee) s
    let numb := 4 * numarg
    .ok (emitCode ("\t " ++ "ADD.L" ++ " \t#" ++ toString numb ++ ", A7") s)

/-- `cgEpilog`: leave the frame, then halt (in `main`) or return. -/
def cgEpilog (funnam : String) (s : CgState) : CgState :=
  let s := emitCode ("\t " ++ "MOVEA.L" ++ " \t " ++ "A6, A7") s
  let s := emitCode ("\t " ++ "MOVEA.L" ++ " \t " ++ "(A6), A6") s
  let s := emitCode ("\t " ++ "ADDA.L" ++ " \t " ++ "#4, A7") s
  if funnam = "main" then emitCode ("\t " ++ "SIMHALT") s
  else emitCode ("\t " ++ "RTS") s

/-- `cgNam`: load the variable `lex` of `funnam` into register `reg`. -/
def cgNam (funnam lex reg : String) (s : CgState) : Res :=
  let idx := layFindVarParIdx s.lay funnam lex
  let off := s.lay.off idx
  if off = 0 then
    .fatal (utDie5Str "cgNam" "cgFind failed, looking for symbol" lex "in function" funnam) s
  else
    .ok (emitCode ("\t " ++ "MOVE.L" ++ " \t " ++ "(" ++ toString off ++ ",A6)," ++ " " ++ reg) s)

/-- `cgNum`: load the literal `val` into register `reg`. -/
def cgNum (val : Int) (reg : String) (s : CgState) : CgState :=
  emitCode ("\t " ++ "MOVE.L" ++ " \t " ++ "#" ++ toString val ++ "," ++ " " ++ reg) s

/-- The operand dispatch of `cgExp`: a name, a number, or (any other kind)
nothing. -/
def cgOperand (funnam : String) (nns : AstNns) (reg : String) (s : CgState) : Res :=
  match nns with
  | .ASTNAM lex => cgNam funnam lex reg s
  | .ASTNUM val => .ok (cgNum val reg s)
  | .ASTSTR _ => .ok s

/-- `cgExp`: code for `NamNum` or `NamNum Bop NamNum`, result in D0. -/
def cgExp (funnam : String) (astexp : AstExp) (s : CgState) : Res :=
  match astexp.lhs with
  | none => .ok s
  | some lhs =>
    (cgOperand funnam lhs "D0" s).andThen fun s =>
      match astexp.rhs with
      | none => .ok s
      | some rhs =>
        (cgOperand funnam rhs "D1" s).andThen fun s => .ok (cgBop astexp.bop s)

/-- `cgIf`: the body of the function in `cg.c` holds declarations and comments
only (`//++ Complete this function`); it emits nothing. -/
def cgIf (_funnam : String) (_exp : AstExp) (_block : List AstStm) (s : CgState) : Res :=
  .ok s

/-- `cgProlog`: the body of the function in `cg.c` is empty
(`//++ Complete this function`); it emits nothing. -/
def cgProlog (_funnam : String) (s : CgState) : CgState := s

/-- `cgWhile`: code for `while (exp) block`.  The call
`cgBlock(cg, funnam, astwhile->block)` is the argument `cgBlockOfWhile`, so that
the recursion through the block is tied in `cgStm`. -/
def cgWhile (funnam : String) (exp : AstExp) (cgBlockOfWhile : CgState → Res)
    (s : CgState) : Res :=
  let (startlabel, s) := cgLabel s
  let s := emitCode (startlabel ++ ":") s
  let (exitlabel, s) := cgLabel s
  (cgExp funnam exp s).andThen fun s =>
    let s := emitCode ("\t " ++ "CMPI.L" ++ " \t " ++ "#0, D0") s
    let s := emitCode ("\t " ++ "BEQ" ++ " \t " ++ exitlabel) s
    (cgBlockOfWhile s).andThen fun s =>
      let s := emitCode ("\t " ++ "BRA" ++ " \t " ++ startlabel) s
      let s := emitCode (exitlabel ++ ":") s
      .ok (emitCode (exitlabel ++ ":") s)

mutual
/-- `cgStm`: dispatch on the statement kind. -/
def cgStm (funnam : String) (aststm : AstStm) (s : CgState) : Res :=
  match aststm with
  | .ASTIF exp block => cgIf funnam exp block s
  | .ASTASG nam eoc =>
    (match eoc with
      | .ASTCALL astcall => cgCall funnam astcall s
      | .ASTEXP astexp => cgExp funnam astexp s).andThen (cgAsg funnam nam)
  | .ASTRET exp => (cgExp funnam exp s).andThen fun s => .ok (cgEpilog funnam s)
  | .ASTWHILE exp block => cgWhile funnam exp (cgBlock funnam block) s
  | .other _ => .fatal (utDie2Str "cgStm" "Invalid aststm->kind") s
termination_by structural aststm
/-- `cgBlock`: the statements of a block, first to last. -/
def cgBlock (funnam : String) (stms : List AstStm) (s : CgState) : Res :=
  match stms with
  | [] => .ok s
  | aststm :: next => (cgStm funnam aststm s).andThen (cgBlock funnam next)
termination_by structural stms
end

/-- `cgStms`: the statements of a body, first to last. -/
def cgStms (funnam : String) (stms : List AstStm) (s : CgState) : Res :=
  match stms with
  | [] => .ok s
  | aststm :: next => (cgStm funnam aststm s).andThen (cgStms funnam next)

/-- `cgBody`: code for the statements of a function body. -/
def cgBody (funnam : String) (astbody : AstBody) (s : CgState) : Res :=
  cgStms funnam astbody.stms s

/-- `cgFun`: build the layout, emit the entry label, the prolog and the body.
`layBuild` (of `lay.c`, not at hand) is a parameter. -/
def cgFun (layBuild : Lay → AstFun → Lay) (astfun : AstFun) (s : CgState) : Res :=
  let s := { s with lay := layBuild s.lay astfun }
  let funnam := astfun.nam
  let s := emitCode (funnam ++ ":") s
  let s := cgProlog funnam s
  cgBody funnam astfun.body s

/-- The function loop of `cgProg`. -/
def cgFuns (layBuild : Lay → AstFun → Lay) : List AstFun → CgState → Res
  | [], s => .ok s
  | astfun :: next, s => (cgFun layBuild astfun s).andThen (cgFuns layBuild next)

/-- `cgProg`: preamble, intrinsics, every function in order, `END main`.
`layBuildIntrinsics` and `layBuild` (of `lay.c`) are parameters. -/
def cgProg (layBuildIntrinsics : Lay → Lay) (layBuild : Lay → AstFun → Lay)
    (astprog : AstProg) (s : CgState) : Res :=
  let s := emitCode ("\t " ++ "INCLUDE" ++ " \t " ++ "..\\..\\Tests\\io.X68") s
  let s := { s with lay := layBuildIntrinsics s.lay }
  (cgFuns layBuild astprog.funs s).andThen fun s =>
    .ok (emitCode ("\t " ++ "END" ++ " \t " ++ "main") s)

/-- The state at the start of a run: `cgNew` (empty streams) and the initial
`labnum`. -/
def cgNew (lay : Lay) : CgState :=
  { lay := lay, emit := { codeBuf := [], dataBuf := [] }, labnum := labnumInit, issued := [] }

/-! ## Reading the emitted text -/

/-- The code lines that the step from `s` to `t` appended. -/
def codeSince (s t : CgState) : List String :=
  t.emit.codeBuf.drop s.emit.codeBuf.length

/-- The data lines that the step from `s` to `t` appended. -/
def dataSince (s t : CgState) : List String :=
  t.emit.dataBuf.drop s.emit.dataBuf.length

/-- The label texts that `cgLabel` returned during the step from `s` to `t`. -/
def issuedSince (s t : CgState) : List String :=
  t.issued.drop s.issued.length

/-- The state `s` with the lines `lines` appended to its code stream and nothing
else changed. -/
def appendCode (lines : List String) (s : CgState) : CgState :=
  { s with emit := { s.emit with codeBuf := s.emit.codeBuf ++ lines } }

/-- The value of the counter after `k` label requests from the value `n`: each
request adds 10 in 32 bits. -/
def labnumAfter (n : Int) : Nat → Int
  | 0 => n
  | k + 1 => wrap32 (labnumAfter n k + 10)

/-- The texts of the `j` labels that follow the counter value `n`: the numbers of
the counter after 1, 2, …, `j` requests. -/
def labelsFrom (n : Int) (j : Nat) : List String :=
  (List.range j).map fun i => "L" ++ toString (labnumAfter n (i + 1))

/-- The state `t` comes from `s` by appending lines to the two streams and by some
number of label requests, each advancing the counter by 10 (in 32 bits) and
recorded in `issued`. -/
structure Grows (s t : CgState) : Prop where
  code : s.emit.codeBuf <+: t.emit.codeBuf
  data : s.emit.dataBuf <+: t.emit.dataBuf
  labels : ∃ j, t.labnum = labnumAfter s.labnum j
    ∧ t.issued = s.issued ++ labelsFrom s.labnum j

/-- Value of a decimal digit character. -/
def digitVal (c : Char) : Nat := c.toNat - 48

/-- Value of a string of decimal digits, most significant first. -/
def decVal (cs : List Char) : Nat := cs.foldl (fun a c => a * 10 + digitVal c) 0

/-- The text of the label numbered `n`. -/
def labelText (n : Int) : String := "L" ++ toString n

/-- The six relational operators. -/
def BOP.isRelational : BOP → Bool
  | .BOPLT | .BOPLE | .BOPEEQ | .BOPNE | .BOPGE | .BOPGT => true
  | _ => false

/-- The branch mnemonic that `cgBop` passes to `cgBranch` for a relational
operator. -/
def BOP.mnemonic : BOP → String
  | .BOPLT => "BLT"
  | .BOPLE => "BLE"
  | .BOPEEQ => "BEQ"
  | .BOPNE => "BNE"
  | .BOPGE => "BGE"
  | .BOPGT => "BGT"
  | _ => ""

/-- The relation a relational operator denotes on integers (`left op right`). -/
def BOP.holds : BOP → Int → Int → Bool
  | .BOPLT, a, b => decide (a < b)
  | .BOPLE, a, b => decide (a ≤ b)
  | .BOPEEQ, a, b => decide (a = b)
  | .BOPNE, a, b => decide (a ≠ b)
  | .BOPGE, a, b => decide (a ≥ b)
  | .BOPGT, a, b => decide (a > b)
  | _, _, _ => false

/-- An operand that `cgExp` can load: a literal, or a name whose layout row has a
non-zero offset (the test `cgNam` makes). -/
def loadable (lay : Lay) (funnam : String) : AstNns → Bool
  | .ASTNAM lex => decide (lay.off (layFindVarParIdx lay funnam lex) ≠ 0)
  | .ASTNUM _ => true
  | .ASTSTR _ => false

/-- The source operand text of a loadable operand: `(off,A6)` or `#val`. -/
def srcText (lay : Lay) (funnam : String) : AstNns → String
  | .ASTNAM lex => "(" ++ toString (lay.off (layFindVarParIdx lay funnam lex)) ++ ",A6)"
  | .ASTNUM val => "#" ++ toString val
  | .ASTSTR _ => ""

/-- The line that loads a loadable operand into `reg`. -/
def loadLine (lay : Lay) (funnam : String) (nns : AstNns) (reg : String) : String :=
  "\t MOVE.L \t " ++ srcText lay funnam nns ++ ", " ++ reg

/-- An argument that `cgCall` pushes with one line: a literal, or a name for which
`layFindVarParIdx` returns a row (the `assert` of `cgCall`). -/
def pushable (lay : Lay) (funnam : String) (astarg : AstArg) : Bool :=
  match astarg.nns with
  | .ASTNAM lex => decide (layFindVarParIdx lay funnam lex ≠ 0)
  | .ASTNUM _ => true
  | .ASTSTR _ => false

/-- The line that pushes a name or literal argument: `MOVE.L <src>, -(A7)`. -/
def pushLine (lay : Lay) (funnam : String) (astarg : AstArg) : String :=
  "\t MOVE.L \t " ++ srcText lay funnam astarg.nns ++ ", -(A7)"

/-- The four lines of the epilog, with the given terminator mnemonic. -/
def epilogLines (terminator : String) : List String :=
  ["\t MOVEA.L \t A6, A7", "\t MOVEA.L \t (A6), A6", "\t ADDA.L \t #4, A7",
   "\t " ++ terminator]

/-- The state reached by `k` successive calls of `cgLabel`. -/
def cgLabelTimes : Nat → CgState → CgState
  | 0, s => s
  | k + 1, s => (cgLabel (cgLabelTimes k s)).2

/-! ## The 68000 instructions of the comparison pattern

The meaning of the instruction forms that `cgBop` and `cgBranch` emit for a
relational operator, after the M68000 Programmer's Reference Manual: `CMP.L`
subtracts the source from the destination without storing the result and sets
N, Z, V, C; `Bcc` tests the condition codes; `CLR.L` and `MOVE.L` write the
destination and set the codes; a label line assembles to no instruction. -/

/-- Branch conditions. -/
inductive Cond where
  | LT | LE | EQ | NE | GE | GT
  deriving DecidableEq, Repr

/-- The instruction forms of the comparison pattern. -/
inductive Instr where
  | CMP_D1_D0
  | Bcc (cc : Cond) (target : String)
  | BRA (target : String)
  | CLR_D0
  | MOVE_1_D0
  | Label (name : String)
  deriving DecidableEq, Repr

/-- The condition of the branch `cgBop` emits for a relational operator. -/
def BOP.cond : BOP → Cond
  | .BOPLT => .LT
  | .BOPLE => .LE
  | .BOPEEQ => .EQ
  | .BOPNE => .NE
  | .BOPGE => .GE
  | _ => .GT

/-- Registers D0 and D1 as signed 32-bit values, the condition codes, and the
index of the next line to execute. -/
structure M68k where
  d0 : Int
  d1 : Int
  n : Bool
  z : Bool
  v : Bool
  c : Bool
  pc : Nat
  deriving DecidableEq, Repr

/-- A signed 32-bit value. -/
def isLong (x : Int) : Prop := -2147483648 ≤ x ∧ x < 2147483648

/-- Remove the prefix `p` from `cs`, if `cs` starts with it. -/
def dropLeading? : List Char → List Char → Option (List Char)
  | [], cs => some cs
  | _ :: _, [] => none
  | p :: ps, c :: cs => if p = c then dropLeading? ps cs else none

/-- Decode the operand part of a branch line into the branch with condition
`mk`. -/
def decodeBranch (pre : List Char) (mk : String → Instr) (cs : List Char) : Option Instr :=
  (dropLeading? pre cs).map fun t => mk (String.mk t)

/-- Decode a line that starts with `<tab><space>` (an instruction line), given the
characters after that start. -/
def decodeInstr (cs : List Char) : Option Instr :=
  if cs = "CMP.L \t D1, D0".data then some .CMP_D1_D0
  else if cs = "CLR.L \t D0".data then some .CLR_D0
  else if cs = "MOVE.L \t #1, D0".data then some .MOVE_1_D0
  else
    (decodeBranch ['B', 'R', 'A', ' ', '\t', ' '] .BRA cs).orElse fun _ =>
    (decodeBranch ['B', 'L', 'T', ' ', '\t', ' '] (.Bcc .LT) cs).orElse fun _ =>
    (decodeBranch ['B', 'L', 'E', ' ', '\t', ' '] (.Bcc .LE) cs).orElse fun _ =>
    (decodeBranch ['B', 'E', 'Q', ' ', '\t', ' '] (.Bcc .EQ) cs).orElse fun _ =>
    (decodeBranch ['B', 'N', 'E', ' ', '\t', ' '] (.Bcc .NE) cs).orElse fun _ =>
    (decodeBranch ['B', 'G', 'E', ' ', '\t', ' '] (.Bcc .GE) cs).orElse fun _ =>
    decodeBranch ['B', 'G', 'T', ' ', '\t', ' '] (.Bcc .GT) cs

/-- Decode one line of emitted text: an instruction line `<tab><space>…`, or a
label definition `<name>:`. -/
def decodeLine (line : String) : Option Instr :=
  match line.data with
  | '\t' :: ' ' :: cs => decodeInstr cs
  | cs =>
    if cs.getLast? = some ':' then some (.Label (String.mk cs.dropLast)) else none

/-- `CMP.L D1, D0`: condition codes of `D0 - D1`; the registers are unchanged. -/
def execCMP (m : M68k) : M68k :=
  let r := wrap32 (m.d0 - m.d1)
  let sm := decide (m.d1 < 0)
  let dm := decide (m.d0 < 0)
  let rm := decide (r < 0)
  { m with
    n := rm
    z := decide (r = 0)
    v := (!sm && dm && !rm) || (sm && !dm && rm)
    c := (sm && !dm) || (rm && !dm) || (sm && rm)
    pc := m.pc + 1 }

/-- The test a `Bcc` makes on the condition codes. -/
def Cond.test (cc : Cond) (m : M68k) : Bool :=
  match cc with
  | .EQ => m.z
  | .NE => !m.z
  | .LT => (m.n && !m.v) || (!m.n && m.v)
  | .GE => (m.n && m.v) || (!m.n && !m.v)
  | .GT => (m.n && m.v && !m.z) || (!m.n && !m.v && !m.z)
  | .LE => m.z || (m.n && !m.v) || (!m.n && m.v)

/-- The line index of the definition of label `target` in the decoded program. -/
def findLabel (prog : List (Option Instr)) (target : String) : Option Nat :=
  let i := prog.indexOf (some (.Label target))
  if i < prog.length then some i else none

/-- Execute one decoded instruction. -/
def execInstr (prog : List (Option Instr)) (i : Instr) (m : M68k) : Option M68k :=
  match i with
  | .CMP_D1_D0 => some (execCMP m)
  | .Bcc cc target =>
    if cc.test m then (findLabel prog target).map fun i => { m with pc := i }
    else some { m with pc := m.pc + 1 }
  | .BRA target => (findLabel prog target).map fun i => { m with pc := i }
  | .CLR_D0 => some { m with d0 := 0, n := false, z := true, v := false, c := false,
                             pc := m.pc + 1 }
  | .MOVE_1_D0 => some { m with d0 := 1, n := false, z := false, v := false, c := false,
                                pc := m.pc + 1 }
  | .Label _ => some { m with pc := m.pc + 1 }

/-- Run a decoded program from the machine state `m` until control leaves its end;
`none` when a line did not decode, a branch target is not defined in the program,
or the fuel runs out. -/
def runDecoded (prog : List (Option Instr)) : Nat → M68k → Option M68k
  | fuel, m =>
    if prog.length ≤ m.pc then some m
    else
      match fuel with
      | 0 => none
      | fuel + 1 =>
        match prog.get? m.pc with
        | some (some i) =>
          (match execInstr prog i m with
            | some m1 => runDecoded prog fuel m1
            | none => none)
        | _ => none

/-- Run the emitted lines `code`: decode each line, then run the decoded program. -/
def run (code : List String) (fuel : Nat) (m : M68k) : Option M68k :=
  runDecoded (code.map decodeLine) fuel m

/-! ## Reports, sequences and further readings of the text -/

/-- The text with which a fatal outcome is reported: the message printed by the
`utDie…` function, or for a failed `assert` the message the C library writes, in
the layout of glibc: `<file>:<line>: <function>: Assertion` followed by the
asserted expression between a grave accent and an apostrophe and by ` failed.`.
The library puts the name of the program and `: ` before this text and writes
the file with the directory it was compiled from; both vary with the build and
are left out. -/
def Fatal.report : Fatal → String
  | .assertFailed file line func cond =>
    file ++ ":" ++ toString line ++ ": " ++ func ++ ": Assertion \x60" ++ cond ++ "' failed."
  | .die report => report

/-- The text `part` occurs in the text `report`. -/
def occursIn (part report : String) : Prop := part.data <:+: report.data

/-- The state `s` with the lines `lines` appended to its data stream and nothing
else changed. -/
def appendData (lines : List String) (s : CgState) : CgState :=
  { s with emit := { s.emit with dataBuf := s.emit.dataBuf ++ lines } }

/-- The three arithmetic operators that `cgBop` handles. -/
def BOP.isArithmetic : BOP → Bool
  | .BOPADD | .BOPSUB | .BOPMUL => true
  | _ => false

/-- The instruction mnemonic of an arithmetic operator. -/
def BOP.arithMnemonic : BOP → String
  | .BOPADD => "ADD.L"
  | .BOPSUB => "SUB.L"
  | .BOPMUL => "MULS"
  | _ => ""

/-- An operator value that is neither arithmetic nor relational: `BOPBAD`,
`BOPNONE`, `BOPDIV`. -/
def BOP.isInvalid (bop : BOP) : Bool := !bop.isArithmetic && !bop.isRelational

/-- The lowering of the right-hand side of an assignment, as `cgStm` dispatches
it: `cgCall` for a call, `cgExp` otherwise. -/
def cgEoc (funnam : String) (eoc : AstEoc) (s : CgState) : Res :=
  match eoc with
  | .ASTCALL astcall => cgCall funnam astcall s
  | .ASTEXP astexp => cgExp funnam astexp s

/-- Lowering in declaration order, in the words of the spec: start from `s` and
lower each statement in turn from the state the one before it returned, stopping at
a fatal error. -/
def lowerSequence (funnam : String) (stms : List AstStm) (s : CgState) : Res :=
  stms.foldl (fun r aststm => r.andThen (cgStm funnam aststm)) (.ok s)

/-- The code each statement of a sequence appends, when the sequence is lowered
from `s` with the state threaded from one statement to the next. -/
def stmCodes (funnam : String) : List AstStm → CgState → List (List String)
  | [], _ => []
  | aststm :: next, s =>
    codeSince s (cgStm funnam aststm s).state
      :: stmCodes funnam next (cgStm funnam aststm s).state

/-- The code each function of a program appends, when the functions are lowered
from `s` with the state threaded from one function to the next. -/
def funCodes (layBuild : Lay → AstFun → Lay) : List AstFun → CgState → List (List String)
  | [], _ => []
  | astfun :: next, s =>
    codeSince s (cgFun layBuild astfun s).state
      :: funCodes layBuild next (cgFun layBuild astfun s).state

/-- The state in which `cgProg` starts the function loop: the preamble line is
emitted and the intrinsics are in the layout. -/
def afterPreamble (layBuildIntrinsics : Lay → Lay) (s : CgState) : CgState :=
  { appendCode ["\t INCLUDE \t ..\\..\\Tests\\io.X68"] s with
    lay := layBuildIntrinsics s.lay }

/-! ## Branch targets -/

/-- The label that a branch line names: for a line `<tab> Bxx <tab> <label>` whose
mnemonic is `B` and two more letters (`BRA` or a conditional branch), the label.
`BSR`, the subroutine call, is not a branch; any other line names none. -/
def branchTarget? (line : String) : Option String :=
  match dropLeading? ['\t', ' ', 'B'] line.data with
  | some (x :: y :: rest) =>
    if x = 'S' ∧ y = 'R' then none
    else (dropLeading? [' ', '\t', ' '] rest).map String.mk
  | _ => none

/-- The labels named by the branch lines of `code`, in order. -/
def branchTargets (code : List String) : List String := code.filterMap branchTarget?

/-- Every label that a branch line of `code` names has its definition line
`<label>:` in `code`. -/
def targetsDefined (code : List String) : Prop :=
  ∀ target ∈ branchTargets code, (target ++ ":") ∈ code

/-- The state `t` is `s` with code lines appended of which none is a branch. -/
def AddsPlain (s t : CgState) : Prop :=
  ∃ c, t.emit.codeBuf = s.emit.codeBuf ++ c ∧ branchTargets c = []

/-- The state `t` is `s` with code lines appended whose branch targets are all
defined among them. -/
def AddsClosed (s t : CgState) : Prop :=
  ∃ c, t.emit.codeBuf = s.emit.codeBuf ++ c ∧ targetsDefined c

/-! ## Example data -/

/-- A layout for the examples: in every function, `a`, `b`, `c` are the rows 1, 2,
3 at offsets 8, 12, 16 and `i`, `x` the rows 4, 5 at offsets -4, -8; any other name
has no row, and row 0 has offset 0. -/
def layExample : Lay where
  findVarParIdx := fun _ nam =>
    if nam = "a" then 1 else if nam = "b" then 2 else if nam = "c" then 3
    else if nam = "i" then 4 else if nam = "x" then 5 else 0
  off := fun idx =>
    if idx = 1 then 8 else if idx = 2 then 12 else if idx = 3 then 16
    else if idx = 4 then -4 else if idx = 5 then -8 else 0

/-- The condition `i < 5`. -/
def condExample : AstExp := ⟨some (.ASTNAM "i"), .BOPLT, some (.ASTNUM 5)⟩

/-- The block `{ i = i + 1; }`. -/
def blockExample : List AstStm :=
  [.ASTASG "i" (.ASTEXP ⟨some (.ASTNAM "i"), .BOPADD, some (.ASTNUM 1)⟩)]

/-- The function `int main() { int i; return 0; }`. -/
def funExample : AstFun :=
  { nam := "main", pars := [], vars := ["i"],
    body := { stms := [.ASTRET ⟨some (.ASTNUM 0), .BOPNONE, none⟩] } }

/-- A `layBuild` for the examples: it leaves the layout as it is. -/
def layBuildExample : Lay → AstFun → Lay := fun lay _ => lay

/-- The call `says("hi", 7)`. -/
def callExample : AstCall := ⟨"says", [⟨.ASTSTR "hi"⟩, ⟨.ASTNUM 7⟩]⟩

/-- The program of the two functions `int add2() { return 0; }` and
`int main() { int i; return 0; }`. -/
def progExample : AstProg :=
  { funs := [{ nam := "add2", pars := [], vars := [],
               body := { stms := [.ASTRET ⟨some (.ASTNUM 0), .BOPNONE, none⟩] } },
             funExample] }

/-- The statements `i = 1; while (i < 5) { i = i + 1; }`. -/
def stmsExample : List AstStm :=
  [.ASTASG "i" (.ASTEXP ⟨some (.ASTNUM 1), .BOPNONE, none⟩),
   .ASTWHILE condExample blockExample]

/-- The program `int main() { int i; i = 1; while (i < 5) { i = i + 1; } }`. -/
def progLoopExample : AstProg :=
  { funs := [{ nam := "main", pars := [], vars := ["i"], body := { stms := stmsExample } }] }

/-- A state late in the life of the counter: empty streams and `labnum` 2147483630,
one request before the last `int` value that ends in 0. -/
def lateState : CgState := { cgNew layExample with labnum := 2147483630 }

/-- The statement `return 1 < 2;`. -/
def retLtExample : AstStm := .ASTRET ⟨some (.ASTNUM 1), .BOPLT, some (.ASTNUM 2)⟩

/-- The function `int main() { return 1 < 2; … }` whose body is `n` times the
statement `return 1 < 2;`. -/
def mainReturns (n : Nat) : AstFun :=
  { nam := "main", pars := [], vars := [], body := { stms := List.replicate n retLtExample } }

/-- The program that consists of the function `mainReturns n`. -/
def manyReturns (n : Nat) : AstProg := { funs := [mainReturns n] }

/-! ## Basic facts -/

@[simp] theorem emitCode_eq_appendCode (line : String) (s : CgState) :
    emitCode line s = appendCode [line] s := rfl

@[simp] theorem appendCode_appendCode (l1 l2 : List String) (s : CgState) :
    appendCode l2 (appendCode l1 s) = appendCode (l1 ++ l2) s := by
  simp [appendCode, List.append_assoc]

@[simp] theorem appendCode_lay (l : List String) (s : CgState) :
    (appendCode l s).lay = s.lay := rfl

@[simp] theorem appendCode_labnum (l : List String) (s : CgState) :
    (appendCode l s).labnum = s.labnum := rfl

@[simp] theorem appendCode_issued (l : List String) (s : CgState) :
    (appendCode l s).issued = s.issued := rfl

@[simp] theorem appendCode_codeBuf (l : List String) (s : CgState) :
    (appendCode l s).emit.codeBuf = s.emit.codeBuf ++ l := rfl

@[simp] theorem appendCode_dataBuf (l : List String) (s : CgState) :
    (appendCode l s).emit.dataBuf = s.emit.dataBuf := rfl

theorem appendCode_nil (s : CgState) : appendCode [] s = s := by
  simp [appendCode]

@[simp] theorem andThen_ok (s : CgState) (f : CgState → Res) : (Res.ok s).andThen f = f s := rfl

@[simp] theorem andThen_fatal (e : Fatal) (s : CgState) (f : CgState → Res) :
    (Res.fatal e s).andThen f = .fatal e s := rfl

theorem cgLabel_appendCode (l : List String) (s : CgState) :
    cgLabel (appendCode l s) = ((cgLabel s).1, appendCode l (cgLabel s).2) := rfl

@[simp] theorem cgLabel_appendCode_fst (l : List String) (s : CgState) :
    (cgLabel (appendCode l s)).1 = (cgLabel s).1 := rfl

@[simp] theorem cgLabel_appendCode_snd (l : List String) (s : CgState) :
    (cgLabel (appendCode l s)).2 = appendCode l (cgLabel s).2 := rfl

@[simp] theorem cgLabelTimes_appendCode (k : Nat) (l : List String) (s : CgState) :
    cgLabelTimes k (appendCode l s) = appendCode l (cgLabelTimes k s) := by
  induction k with
  | zero => rfl
  | succ k ih => simp only [cgLabelTimes, ih, cgLabel_appendCode_snd]

/-! ## Calls (C1) -/

theorem cgCallArg_pushable (funnam : String) (astarg : AstArg) (s : CgState)
    (h : pushable s.lay funnam astarg = true) :
    cgCallArg funnam astarg s = .ok (appendCode [pushLine s.lay funnam astarg] s) := by
  obtain ⟨nns⟩ := astarg
  cases nns with
  | ASTNAM lex =>
    have h0 : layFindVarParIdx s.lay funnam lex ≠ 0 := by simpa [pushable] using h
    simp only [cgCallArg, h0, if_false, emitCode_eq_appendCode]
    rfl
  | ASTNUM val => rfl
  | ASTSTR txt => simp [pushable] at h

theorem cgCallArgs_pushable (funnam : String) (args : List AstArg) :
    ∀ (k : Nat) (s : CgState), k ≤ args.length →
      (∀ a ∈ args, pushable s.lay funnam a = true) →
      cgCallArgs funnam args k s
        = .ok (appendCode ((args.take k).reverse.map (pushLine s.lay funnam)) s) := by
  intro k
  induction k with
  | zero => intro s _ _; simp [cgCallArgs, appendCode_nil]
  | succ k ih =>
    intro s hk hall
    have hlt : k < args.length := hk
    have hget : args.get? k = some (args.get ⟨k, hlt⟩) := List.get?_eq_get hlt
    have hmem : args.get ⟨k, hlt⟩ ∈ args := List.get_mem args k hlt
    have htake : args.take (k + 1) = args.take k ++ [args.get ⟨k, hlt⟩] := by
      simp [List.take_succ, hget]
    rw [cgCallArgs]
    simp only [astFindArg, hget]
    rw [cgCallArg_pushable funnam _ s (hall _ hmem), andThen_ok,
      ih _ (Nat.le_of_lt hlt) (by simpa using hall)]
    rw [htake]
    simp only [appendCode_appendCode, appendCode_lay, List.reverse_append, List.reverse_cons,
      List.reverse_nil, List.nil_append, List.map_append, List.map_cons, List.map_nil,
      List.singleton_append]

/-- C1: for a call whose arguments are all names with a layout row or integer
literals, `cgCall` appends exactly the push lines `MOVE.L <src>, -(A7)` of the
arguments in reverse order (last argument first), then `BSR <callee>`, then
`ADD.L #4*n, A7` for the `n` arguments, and changes nothing else (data stream,
label counter and layout are as before). -/
theorem cgCall_pushes_reversed_then_bsr_then_adjust (funnam : String) (astcall : AstCall)
    (s : CgState) (hargs : ∀ a ∈ astcall.args, pushable s.lay funnam a = true) :
    cgCall funnam astcall s
      = .ok (appendCode
          (astcall.args.reverse.map (pushLine s.lay funnam)
            ++ ["\t BSR \t" ++ astcall.nam,
                "\t ADD.L \t#" ++ toString (4 * astcall.args.length) ++ ", A7"]) s) := by
  unfold cgCall
  simp only [astCountArgs]
  rw [cgCallArgs_pushable funnam astcall.args _ s (Nat.le_refl _) hargs]
  simp only [andThen_ok, emitCode_eq_appendCode, appendCode_appendCode, List.take_length,
    List.append_assoc, List.singleton_append]
  rfl

/-- C1 at `f(a, b, c)` called from `main`: the pushes are `c`, `b`, `a`, then
`BSR f`, then an adjustment of 12 bytes. -/
theorem cgCall_pushes_reversed_then_bsr_then_adjust_witness :
    (∀ a ∈ (AstCall.mk "f" [⟨.ASTNAM "a"⟩, ⟨.ASTNAM "b"⟩, ⟨.ASTNAM "c"⟩]).args,
        pushable (cgNew layExample).lay "main" a = true) ∧
    cgCall "main" ⟨"f", [⟨.ASTNAM "a"⟩, ⟨.ASTNAM "b"⟩, ⟨.ASTNAM "c"⟩]⟩ (cgNew layExample)
      = .ok (appendCode
          ["\t MOVE.L \t (16,A6), -(A7)", "\t MOVE.L \t (12,A6), -(A7)",
           "\t MOVE.L \t (8,A6), -(A7)", "\t BSR \tf", "\t ADD.L \t#12, A7"]
          (cgNew layExample)) :=
  ⟨by decide,
   cgCall_pushes_reversed_then_bsr_then_adjust "main"
     ⟨"f", [⟨.ASTNAM "a"⟩, ⟨.ASTNAM "b"⟩, ⟨.ASTNAM "c"⟩]⟩ (cgNew layExample) (by decide)⟩

/-! ## Relational expressions (C2) -/

theorem cgOperand_loadable (funnam : String) (nns : AstNns) (reg : String) (s : CgState)
    (h : loadable s.lay funnam nns = true) :
    cgOperand funnam nns reg s = .ok (appendCode [loadLine s.lay funnam nns reg] s) := by
  cases nns with
  | ASTNAM lex =>
    have h0 : s.lay.off (layFindVarParIdx s.lay funnam lex) ≠ 0 := by simpa [loadable] using h
    simp [cgOperand, cgNam, h0, loadLine, srcText, String.append_assoc]
    rfl
  | ASTNUM val =>
    simp [cgOperand, cgNum, loadLine, srcText, String.append_assoc]
    rfl
  | ASTSTR txt => simp [loadable] at h

theorem cgBop_relational (bop : BOP) (s : CgState) (hop : bop.isRelational = true) :
    cgBop bop s
      = appendCode
          ["\t CMP.L \t D1, D0",
           "\t " ++ bop.mnemonic ++ " \t " ++ (cgLabel s).1,
           "\t CLR.L \t D0",
           "\t BRA \t " ++ (cgLabel (cgLabel s).2).1,
           (cgLabel s).1 ++ ":",
           "\t MOVE.L \t #1, D0",
           (cgLabel (cgLabel s).2).1 ++ ":"] (cgLabelTimes 2 s) := by
  cases bop <;> first
    | (exact absurd hop (by decide))
    | simp [cgBop, cgBranch, cgLabel, cgLabelTimes, appendCode, emitCode, BOP.mnemonic,
        LABELINC, List.append_assoc]

/-- C2: for a relational operator and operands that are integer literals or names
with a non-zero layout offset, `cgExp` appends exactly nine lines: load of `x` into
D0, load of `y` into D1, `CMP.L D1, D0`, the conditional branch with the operator's
mnemonic to the true label, `CLR.L D0`, `BRA` to the exit label, the definition of
the true label, `MOVE.L #1, D0`, the definition of the exit label.  The true label
is the first and the exit label the second of two consecutive results of `cgLabel`
(the counter after one and after two additions of 10, in 32 bits); nothing else
changes. -/
theorem cgExp_relational_nine_lines (funnam : String) (x y : AstNns) (bop : BOP)
    (s : CgState) (hop : bop.isRelational = true)
    (hx : loadable s.lay funnam x = true) (hy : loadable s.lay funnam y = true) :
    cgExp funnam ⟨some x, bop, some y⟩ s
      = .ok (appendCode
          [loadLine s.lay funnam x "D0",
           loadLine s.lay funnam y "D1",
           "\t CMP.L \t D1, D0",
           "\t " ++ bop.mnemonic ++ " \t " ++ (cgLabel s).1,
           "\t CLR.L \t D0",
           "\t BRA \t " ++ (cgLabel (cgLabel s).2).1,
           (cgLabel s).1 ++ ":",
           "\t MOVE.L \t #1, D0",
           (cgLabel (cgLabel s).2).1 ++ ":"] (cgLabelTimes 2 s))
      ∧ (cgLabel s).1 = labelText (wrap32 (s.labnum + 10))
      ∧ (cgLabel (cgLabel s).2).1 = labelText (wrap32 (wrap32 (s.labnum + 10) + 10))
      ∧ bop.mnemonic ∈ ["BLT", "BLE", "BEQ", "BNE", "BGE", "BGT"] := by
  refine ⟨?_, rfl, rfl, ?_⟩
  · unfold cgExp
    simp only []
    rw [cgOperand_loadable funnam x "D0" s hx, andThen_ok,
      cgOperand_loadable funnam y "D1" _ (by simpa using hy), andThen_ok,
      cgBop_relational bop _ hop]
    simp only [appendCode_lay, cgLabel_appendCode_fst, cgLabel_appendCode_snd,
      cgLabelTimes_appendCode, appendCode_appendCode, List.cons_append, List.nil_append]
  · cases bop <;> first | (exact absurd hop (by decide)) | decide

/-- C2 at `a < 5` in `main` from the initial state: the nine lines, with the true
label `L20` and the exit label `L30`. -/
theorem cgExp_relational_nine_lines_witness :
    codeSince (cgNew layExample)
        (cgExp "main" ⟨some (.ASTNAM "a"), .BOPLT, some (.ASTNUM 5)⟩ (cgNew layExample)).state
      = ["\t MOVE.L \t (8,A6), D0", "\t MOVE.L \t #5, D1", "\t CMP.L \t D1, D0",
         "\t BLT \t L20", "\t CLR.L \t D0", "\t BRA \t L30", "L20:",
         "\t MOVE.L \t #1, D0", "L30:"] := by
  rw [(cgExp_relational_nine_lines "main" (.ASTNAM "a") (.ASTNUM 5) .BOPLT (cgNew layExample)
    (by decide) (by decide) (by decide)).1]
  decide

/-! ## Return (C4) -/

theorem cgEpilog_eq (funnam : String) (s : CgState) :
    cgEpilog funnam s
      = appendCode (epilogLines (if funnam = "main" then "SIMHALT" else "RTS")) s := by
  unfold cgEpilog
  by_cases h : funnam = "main"
  · simp only [h, if_true, emitCode_eq_appendCode, appendCode_appendCode]
    rfl
  · simp only [h, if_false, emitCode_eq_appendCode, appendCode_appendCode]
    rfl

theorem cgLabel_fst (s : CgState) : (cgLabel s).1 = labelText (wrap32 (s.labnum + 10)) := rfl

theorem cgLabel_snd_labnum (s : CgState) : (cgLabel s).2.labnum = wrap32 (s.labnum + 10) := rfl

theorem cgLabelTimes_labnum (k : Nat) (s : CgState) :
    (cgLabelTimes k s).labnum = labnumAfter s.labnum k := by
  induction k with
  | zero => rfl
  | succ k ih => rw [cgLabelTimes, cgLabel_snd_labnum, ih]; rfl

theorem wrap32_of_isLong (x : Int) (h : isLong x) : wrap32 x = x := by
  unfold isLong at h
  unfold wrap32
  omega

theorem wrap32_wrap32_add (x y : Int) : wrap32 (wrap32 x + y) = wrap32 (x + y) := by
  unfold wrap32
  omega

theorem wrap32_add_ten_ne (x : Int) : wrap32 (x + 10) ≠ wrap32 (wrap32 (x + 10) + 10) := by
  unfold wrap32
  omega

theorem labnumAfter_succ_eq (n : Int) (k : Nat) :
    labnumAfter n (k + 1) = wrap32 (n + 10 * (k + 1 : Nat)) := by
  induction k with
  | zero => simp [labnumAfter]
  | succ k ih =>
    rw [labnumAfter, ih, wrap32_wrap32_add]
    congr 1
    push_cast
    ring

theorem labnumAfter_of_le (n : Int) (k : Nat) (hlo : -2147483648 ≤ n)
    (hhi : n + 10 * (k : Int) ≤ 2147483647) : labnumAfter n k = n + 10 * (k : Int) := by
  cases k with
  | zero => simp [labnumAfter]
  | succ k =>
    rw [labnumAfter_succ_eq]
    apply wrap32_of_isLong
    unfold isLong
    push_cast at hhi ⊢
    omega

theorem labnumAfter_add (n : Int) (j k : Nat) :
    labnumAfter (labnumAfter n j) k = labnumAfter n (j + k) := by
  induction k with
  | zero => rfl
  | succ k ih => rw [← Nat.add_assoc, labnumAfter, labnumAfter, ih]

theorem toString_natCast (n : Nat) : toString ((n : Nat) : Int) = toString n := rfl

/-- C5, as far as the `int` counter reaches: in a run, which starts with
`labnum = 10`, the `k`-th call of `cgLabel` (after `k - 1` earlier calls) returns
`"L"` followed by the decimal rendering of `10 + 10 * k`, for every `k` from 1 to
214748363, the last call before `labnum` passes `INT_MAX`. -/
theorem cgLabel_kth_call (s : CgState) (k : Nat) (hinit : s.labnum = labnumInit)
    (hk : 1 ≤ k) (hmax : k ≤ 214748363) :
    (cgLabel (cgLabelTimes (k - 1) s)).1 = "L" ++ toString (10 + 10 * k) := by
  obtain ⟨j, rfl⟩ : ∃ j, k = j + 1 := ⟨k - 1, by omega⟩
  rw [Nat.add_sub_cancel, cgLabel_fst, cgLabelTimes_labnum, hinit,
    labnumAfter_of_le _ j (by decide) (by simp only [labnumInit]; omega),
    wrap32_of_isLong _ (by unfold isLong; simp only [labnumInit]; omega)]
  have h : labnumInit + 10 * (j : Int) + 10 = ((10 + 10 * (j + 1) : Nat) : Int) := by
    simp only [labnumInit]; push_cast; ring
  rw [h]
  rfl

/-- C5 as amended, at the first three calls of a run: `L20`, `L30`, `L40`. -/
theorem cgLabel_kth_call_witness :
    (cgNew layExample).labnum = labnumInit ∧
    (cgLabel (cgLabelTimes (1 - 1) (cgNew layExample))).1 = "L20" ∧
    (cgLabel (cgLabelTimes (2 - 1) (cgNew layExample))).1 = "L30" ∧
    (cgLabel (cgLabelTimes (3 - 1) (cgNew layExample))).1 = "L40" :=
  ⟨rfl, cgLabel_kth_call (cgNew layExample) 1 rfl (by decide) (by decide),
    cgLabel_kth_call (cgNew layExample) 2 rfl (by decide) (by decide),
    cgLabel_kth_call (cgNew layExample) 3 rfl (by decide) (by decide)⟩

/-- C5 as stated fails: in a run, which starts with `labnum = 10`, call number
214748364 of `cgLabel` adds 10 to 2147483640, which leaves the range of `int`;
it returns `L-2147483646`, not `L` followed by the decimal rendering of
`10 + 10 * 214748364`, which is `L2147483650`. -/
theorem cgLabel_call_214748364_overflows :
    (cgNew layExample).labnum = labnumInit
      ∧ (cgLabel (cgLabelTimes (214748364 - 1) (cgNew layExample))).1 = "L-2147483646"
      ∧ "L" ++ toString (10 + 10 * 214748364) = "L2147483650"
      ∧ (cgLabel (cgLabelTimes (214748364 - 1) (cgNew layExample))).1
          ≠ "L" ++ toString (10 + 10 * 214748364) := by
  have h : (cgLabel (cgLabelTimes (214748364 - 1) (cgNew layExample))).1 = "L-2147483646" := by
    rw [cgLabel_fst, cgLabelTimes_labnum,
      labnumAfter_of_le _ _ (by decide) (by simp only [cgNew, labnumInit]; norm_num)]
    have hw : wrap32 ((cgNew layExample).labnum + 10 * ((214748364 - 1 : Nat) : Int) + 10)
        = -2147483646 := by
      simp only [cgNew, labnumInit, wrap32]
      norm_num
    rw [hw]
    decide
  refine ⟨rfl, h, by decide, ?_⟩
  rw [h]
  decide

/-! ## Decimal rendering and label texts -/

theorem digitVal_digitChar (d : Nat) (h : d < 10) : digitVal (Nat.digitChar d) = d := by
  interval_cases d <;> rfl

theorem foldl_toDigitsCore (fuel : Nat) : ∀ (n : Nat) (ds : List Char), n < fuel →
    (Nat.toDigitsCore 10 fuel n ds).foldl (fun a c => a * 10 + digitVal c) 0
      = ds.foldl (fun a c => a * 10 + digitVal c) n := by
  induction fuel with
  | zero => intro n ds h; omega
  | succ f ih =>
    intro n ds h
    unfold Nat.toDigitsCore
    simp only []
    split
    · simp only [List.foldl_cons]
      rw [digitVal_digitChar _ (Nat.mod_lt _ (by decide))]
      congr 1
      omega
    · rw [ih (n / 10) _ (by omega)]
      simp only [List.foldl_cons]
      rw [digitVal_digitChar _ (Nat.mod_lt _ (by decide))]
      congr 1
      omega

theorem decVal_toString (n : Nat) : decVal (toString n).data = n := by
  show decVal (Nat.repr n).data = n
  unfold decVal Nat.repr Nat.toDigits
  simp only [List.asString]
  rw [foldl_toDigitsCore _ _ _ (by omega)]
  rfl

theorem toString_nat_inj {a b : Nat} (h : toString a = toString b) : a = b := by
  have := congrArg (fun s => decVal s.data) h
  simpa [decVal_toString] using this

theorem decVal_minus (cs : List Char) : decVal ('-' :: cs) = decVal cs := by
  simp [decVal, digitVal]

theorem toString_negSucc (n : Nat) :
    toString (Int.negSucc n) = "-" ++ toString (n + 1) := rfl

theorem toString_int_inj {a b : Int} (h : toString a = toString b) : a = b := by
  have key : ∀ m n : Nat, toString m ≠ "-" ++ toString (n + 1) := by
    intro m n hmn
    have hv := congrArg (fun s => decVal s.data) hmn
    have hd : ("-" ++ toString (n + 1)).data = '-' :: (toString (n + 1)).data := rfl
    simp only [hd, decVal_minus, decVal_toString] at hv
    have hl := congrArg (fun s => s.data.length) hmn
    simp only [hd, hv, List.length_cons] at hl
    omega
  cases a with
  | ofNat m =>
    cases b with
    | ofNat n =>
      have : toString m = toString n := h
      rw [toString_nat_inj this]
    | negSucc n =>
      have : toString m = "-" ++ toString (n + 1) := h
      exact absurd this (key m n)
  | negSucc m =>
    cases b with
    | ofNat n =>
      have : toString n = "-" ++ toString (m + 1) := h.symm
      exact absurd this (key n m)
    | negSucc n =>
      have h1 : "-" ++ toString (m + 1) = "-" ++ toString (n + 1) := h
      have h2 := congrArg String.data h1
      simp only [String.data_append] at h2
      have h3 := toString_nat_inj (String.ext (List.append_cancel_left h2))
      have : m = n := by omega
      rw [this]

theorem labelText_inj {a b : Int} (h : labelText a = labelText b) : a = b := by
  apply toString_int_inj
  have h1 := congrArg String.data h
  simp only [labelText, String.data_append] at h1
  exact String.ext (List.append_cancel_left h1)

theorem decodeLine_labelDef (n : Int) :
    decodeLine (labelText n ++ ":") = some (.Label (labelText n)) := by
  have hd : (labelText n ++ ":").data = ('L' :: (toString n).data) ++ [':'] := rfl
  unfold decodeLine
  rw [hd]
  split
  · rename_i cs heq
    simp at heq
  · rw [List.dropLast_concat, List.getLast?_concat, if_pos rfl]
    rfl

theorem decodeLine_CMP : decodeLine "\t CMP.L \t D1, D0" = some .CMP_D1_D0 := by decide
theorem decodeLine_CLR : decodeLine "\t CLR.L \t D0" = some .CLR_D0 := by decide
theorem decodeLine_MOVE : decodeLine "\t MOVE.L \t #1, D0" = some .MOVE_1_D0 := by decide
theorem decodeLine_BRA (l : String) : decodeLine ("\t BRA \t " ++ l) = some (.BRA l) := by
  simp [decodeLine, decodeInstr, decodeBranch, dropLeading?]

theorem decodeLine_Bcc (bop : BOP) (l : String) (hop : bop.isRelational = true) :
    decodeLine ("\t " ++ bop.mnemonic ++ " \t " ++ l) = some (.Bcc bop.cond l) := by
  cases bop <;> first
    | (exact absurd hop (by decide))
    | simp [decodeLine, decodeInstr, decodeBranch, dropLeading?, BOP.mnemonic, BOP.cond]

theorem wrap32_sub_neg_iff (d0 d1 : Int) (h0 : isLong d0) (h1 : isLong d1) :
    (wrap32 (d0 - d1) < 0 ↔ (d0 < d1 ∧ -2147483648 ≤ d0 - d1) ∨ 2147483648 ≤ d0 - d1) := by
  unfold isLong at h0 h1
  unfold wrap32
  omega

theorem wrap32_sub_zero_iff (d0 d1 : Int) (h0 : isLong d0) (h1 : isLong d1) :
    (wrap32 (d0 - d1) = 0 ↔ d0 = d1) := by
  unfold isLong at h0 h1
  unfold wrap32
  omega

theorem cond_test_cmp (bop : BOP) (m : M68k) (hop : bop.isRelational = true)
    (h0 : isLong m.d0) (h1 : isLong m.d1) :
    bop.cond.test (execCMP m) = bop.holds m.d0 m.d1 := by
  obtain ⟨d0, d1, n, z, v, c, pc⟩ := m
  have hN := wrap32_sub_neg_iff d0 d1 h0 h1
  have hZ := wrap32_sub_zero_iff d0 d1 h0 h1
  simp only [isLong] at h0 h1
  generalize hr : wrap32 (d0 - d1) = r at hN hZ
  by_cases hs : d1 < 0 <;> by_cases hd : d0 < 0 <;> by_cases hrn : r < 0 <;>
    by_cases hrz : r = 0 <;>
    cases bop <;> first
    | (exact absurd hop (by decide))
    | (simp [BOP.cond, BOP.holds, Cond.test, execCMP, hr, hs, hd, hrn, hrz]; omega)

theorem runDecoded_halt (prog : List (Option Instr)) (fuel : Nat) (m : M68k)
    (h : prog.length ≤ m.pc) : runDecoded prog fuel m = some m := by
  cases fuel <;> simp [runDecoded, h]

theorem runDecoded_step (prog : List (Option Instr)) (fuel : Nat) (m m1 : M68k) (i : Instr)
    (hget : prog.get? m.pc = some (some i)) (hex : execInstr prog i m = some m1) :
    runDecoded prog (fuel + 1) m = runDecoded prog fuel m1 := by
  have hlt : m.pc < prog.length := by
    by_contra hge
    rw [List.get?_eq_none.mpr (Nat.le_of_not_lt hge)] at hget
    cases hget
  rw [runDecoded]
  simp only [Nat.not_le.mpr hlt, if_false, hget, hex]

theorem execCMP_pc (m : M68k) : (execCMP m).pc = m.pc + 1 := rfl

theorem findLabel_pattern_true (i1 i2 i3 i5 : Instr) (tl : String)
    (h0 : i1 ≠ .Label tl) (h1 : i2 ≠ .Label tl) (h2 : i3 ≠ .Label tl) (h3 : i5 ≠ .Label tl)
    (rest : List (Option Instr)) :
    findLabel (some i1 :: some i2 :: some i3 :: some i5 :: some (.Label tl) :: rest) tl
      = some 4 := by
  simp [findLabel, List.indexOf_cons, h0, h1, h2, h3, cond_eq_if]

theorem findLabel_pattern_exit (i1 i2 i3 i4 i5 i6 : Instr) (el : String)
    (h1 : i1 ≠ .Label el) (h2 : i2 ≠ .Label el) (h3 : i3 ≠ .Label el) (h4 : i4 ≠ .Label el)
    (h5 : i5 ≠ .Label el) (h6 : i6 ≠ .Label el) :
    findLabel [some i1, some i2, some i3, some i4, some i5, some i6, some (.Label el)] el
      = some 6 := by
  simp [findLabel, List.indexOf_cons, h1, h2, h3, h4, h5, h6, cond_eq_if]

theorem runDecoded_pattern (cc : Cond) (tl el : String) (hne : tl ≠ el) (m : M68k)
    (hpc : m.pc = 0) (fuel : Nat) :
    ∃ m1, runDecoded [some .CMP_D1_D0, some (.Bcc cc tl), some .CLR_D0, some (.BRA el),
        some (.Label tl), some .MOVE_1_D0, some (.Label el)] (fuel + 5) m = some m1
      ∧ m1.pc = 7 ∧ m1.d1 = m.d1
      ∧ m1.d0 = if cc.test (execCMP m) then 1 else 0 := by
  have hne2 : el ≠ tl := fun h => hne h.symm
  by_cases ht : cc.test (execCMP m) = true
  · refine ⟨{ execCMP m with d0 := 1, n := false, z := false, v := false, c := false, pc := 7 },
      ?_, rfl, rfl, by simp [ht]⟩
    rw [runDecoded_step _ _ m (execCMP m) .CMP_D1_D0 (by simp [hpc]) rfl,
      runDecoded_step _ _ (execCMP m) { execCMP m with pc := 4 } (.Bcc cc tl)
        (by simp [execCMP_pc, hpc])
        (by rw [execInstr, if_pos ht, findLabel_pattern_true _ _ _ _ _ (by simp) (by simp)
          (by simp) (by simp)]; rfl),
      runDecoded_step _ _ _ { execCMP m with pc := 5 } (.Label tl) (by simp) (by simp [execInstr]),
      runDecoded_step _ _ _
        { execCMP m with d0 := 1, n := false, z := false, v := false, c := false, pc := 6 }
        .MOVE_1_D0 (by simp) (by simp [execInstr]),
      runDecoded_step _ _ _
        { execCMP m with d0 := 1, n := false, z := false, v := false, c := false, pc := 7 }
        (.Label el) (by simp) (by simp [execInstr]),
      runDecoded_halt _ _ _ (by simp)]
  · refine ⟨{ execCMP m with d0 := 0, n := false, z := true, v := false, c := false, pc := 7 },
      ?_, rfl, rfl, by simp [ht]⟩
    rw [runDecoded_step _ _ m (execCMP m) .CMP_D1_D0 (by simp [hpc]) rfl,
      runDecoded_step _ _ (execCMP m) { execCMP m with pc := 2 } (.Bcc cc tl)
        (by simp [execCMP_pc, hpc])
        (by rw [execInstr, if_neg ht, execCMP_pc, hpc]),
      runDecoded_step _ _ _
        { execCMP m with d0 := 0, n := false, z := true, v := false, c := false, pc := 3 }
        .CLR_D0 (by simp) (by simp [execInstr]),
      runDecoded_step _ _ _
        { execCMP m with d0 := 0, n := false, z := true, v := false, c := false, pc := 6 }
        (.BRA el) (by simp)
        (by rw [execInstr, findLabel_pattern_exit _ _ _ _ _ _ _ (by simp) (by simp) (by simp)
          (by simp) (by simpa using hne) (by simp)]; rfl),
      runDecoded_step _ _ _
        { execCMP m with d0 := 0, n := false, z := true, v := false, c := false, pc := 7 }
        (.Label el) (by simp) (by simp [execInstr]),
      runDecoded_halt _ _ _ (by simp)]

theorem cgLabelTimes_emit (k : Nat) (s : CgState) : (cgLabelTimes k s).emit = s.emit := by
  induction k with
  | zero => rfl
  | succ k ih => rw [cgLabelTimes]; exact ih

theorem codeSince_appendCode_cgLabelTimes (l : List String) (k : Nat) (s : CgState) :
    codeSince s (appendCode l (cgLabelTimes k s)) = l := by
  simp [codeSince, cgLabelTimes_emit]

/-! ## Running the comparison pattern (C3) -/

/-- C3: for a relational operator and signed 32-bit values in D0 (left) and D1
(right), running the lines that `cgBop` appended (`CMP.L D1, D0` and the `cgBranch`
pattern) from their first line, with fuel for at least five steps, leaves their end
with D0 = 1 when `left op right` holds and D0 = 0 otherwise; so D0 is 0 or 1. -/
theorem cgBop_relational_leaves_truth_value (bop : BOP) (s : CgState) (m : M68k) (fuel : Nat)
    (hop : bop.isRelational = true) (h0 : isLong m.d0) (h1 : isLong m.d1) (hpc : m.pc = 0)
    (hfuel : 5 ≤ fuel) :
    ∃ m1, run (codeSince s (cgBop bop s)) fuel m = some m1
      ∧ m1.pc = (codeSince s (cgBop bop s)).length
      ∧ m1.d0 = (if bop.holds m.d0 m.d1 then 1 else 0)
      ∧ (m1.d0 = 0 ∨ m1.d0 = 1) := by
  obtain ⟨f, rfl⟩ : ∃ f, fuel = f + 5 := ⟨fuel - 5, by omega⟩
  have hne : labelText (wrap32 (s.labnum + 10))
      ≠ labelText (wrap32 (wrap32 (s.labnum + 10) + 10)) := by
    intro h
    exact wrap32_add_ten_ne _ (labelText_inj h)
  rw [cgBop_relational bop s hop, codeSince_appendCode_cgLabelTimes]
  simp only [run, List.map_cons, List.map_nil, decodeLine_CMP, decodeLine_CLR, decodeLine_MOVE,
    decodeLine_BRA, decodeLine_Bcc bop _ hop, cgLabel_fst, cgLabel_snd_labnum,
    decodeLine_labelDef, List.length_cons, List.length_nil]
  obtain ⟨m1, hrun, hpc1, _, hd0⟩ :=
    runDecoded_pattern bop.cond _ _ hne m hpc f
  refine ⟨m1, hrun, hpc1, ?_, ?_⟩
  · rw [hd0, cond_test_cmp bop m hop h0 h1]
  · rw [hd0]
    by_cases ht : bop.cond.test (execCMP m) = true
    · right; simp [ht]
    · left; simp [ht]

/-- C3 at `3 < 5` and at `-2147483648 >= 5` (where the subtraction overflows). -/
theorem cgBop_relational_leaves_truth_value_witness :
    (∃ m1, run (codeSince (cgNew layExample) (cgBop .BOPLT (cgNew layExample))) 5
        ⟨3, 5, false, false, false, false, 0⟩ = some m1
      ∧ m1.pc = (codeSince (cgNew layExample) (cgBop .BOPLT (cgNew layExample))).length
      ∧ m1.d0 = (if BOP.holds .BOPLT 3 5 then 1 else 0) ∧ (m1.d0 = 0 ∨ m1.d0 = 1)) ∧
    (∃ m1, run (codeSince (cgNew layExample) (cgBop .BOPGE (cgNew layExample))) 5
        ⟨-2147483648, 5, false, false, false, false, 0⟩ = some m1
      ∧ m1.pc = (codeSince (cgNew layExample) (cgBop .BOPGE (cgNew layExample))).length
      ∧ m1.d0 = (if BOP.holds .BOPGE (-2147483648) 5 then 1 else 0)
      ∧ (m1.d0 = 0 ∨ m1.d0 = 1)) :=
  ⟨cgBop_relational_leaves_truth_value .BOPLT (cgNew layExample)
      ⟨3, 5, false, false, false, false, 0⟩ 5 (by decide) (by unfold isLong; decide)
      (by unfold isLong; decide) rfl (by decide),
   cgBop_relational_leaves_truth_value .BOPGE (cgNew layExample)
      ⟨-2147483648, 5, false, false, false, false, 0⟩ 5 (by decide) (by unfold isLong; decide)
      (by unfold isLong; decide) rfl (by decide)⟩

/-! ## Growth of the streams and of the label history -/

theorem labelsFrom_add (n : Int) (j k : Nat) :
    labelsFrom n (j + k) = labelsFrom n j ++ labelsFrom (labnumAfter n j) k := by
  simp only [labelsFrom, List.range_add, List.map_append, List.map_map]
  congr 1
  apply List.map_congr_left
  intro i _
  simp only [Function.comp]
  rw [labnumAfter_add, Nat.add_assoc]

theorem Grows.refl (s : CgState) : Grows s s :=
  ⟨List.prefix_refl _, List.prefix_refl _, 0, rfl, by simp [labelsFrom]⟩

theorem Grows.trans {s t u : CgState} (h1 : Grows s t) (h2 : Grows t u) : Grows s u := by
  obtain ⟨j, hj, hi⟩ := h1.labels
  obtain ⟨k, hk, hi2⟩ := h2.labels
  refine ⟨h1.code.trans h2.code, h1.data.trans h2.data, j + k,
    by rw [hk, hj, labnumAfter_add], ?_⟩
  rw [hi2, hi, hj, labelsFrom_add, List.append_assoc]

theorem grows_appendCode (l : List String) (s : CgState) : Grows s (appendCode l s) :=
  ⟨List.prefix_append _ _, List.prefix_refl _, 0, rfl, by simp [labelsFrom]⟩

theorem grows_emitData (line : String) (s : CgState) : Grows s (emitData line s) :=
  ⟨List.prefix_refl _, List.prefix_append _ _, 0, rfl, by simp [labelsFrom, emitData]⟩

theorem grows_cgLabel (s : CgState) : Grows s (cgLabel s).2 :=
  ⟨List.prefix_refl _, List.prefix_refl _, 1, rfl, rfl⟩

theorem grows_andThen {s : CgState} {r : Res} {f : CgState → Res} (h1 : Grows s r.state)
    (h2 : ∀ t, Grows t (f t).state) : Grows s (r.andThen f).state := by
  cases r with
  | ok t => exact h1.trans (h2 t)
  | fatal e t => exact h1

theorem grows_cgLabelTimes (k : Nat) (s : CgState) : Grows s (cgLabelTimes k s) := by
  induction k with
  | zero => exact Grows.refl s
  | succ k ih => exact ih.trans (grows_cgLabel _)

theorem grows_cgBranch (cond : String) (s : CgState) : Grows s (cgBranch cond s) := by
  unfold cgBranch
  simp only [emitCode_eq_appendCode]
  exact (grows_cgLabel s).trans ((grows_appendCode _ _).trans ((grows_appendCode _ _).trans
    ((grows_cgLabel _).trans ((grows_appendCode _ _).trans ((grows_appendCode _ _).trans
    ((grows_appendCode _ _).trans (grows_appendCode _ _)))))))

theorem grows_cgBop (bop : BOP) (s : CgState) : Grows s (cgBop bop s) := by
  unfold cgBop
  simp only [emitCode_eq_appendCode]
  repeat' split
  all_goals
    first
    | exact grows_appendCode _ _
    | exact (grows_appendCode _ _).trans (grows_cgBranch _ _)

theorem grows_cgOperand (funnam : String) (nns : AstNns) (reg : String) (s : CgState) :
    Grows s (cgOperand funnam nns reg s).state := by
  cases nns with
  | ASTNAM lex =>
    simp only [cgOperand, cgNam]
    split
    · exact Grows.refl s
    · exact grows_appendCode _ _
  | ASTNUM val => exact grows_appendCode _ _
  | ASTSTR txt => exact Grows.refl s

theorem grows_cgExp (funnam : String) (astexp : AstExp) (s : CgState) :
    Grows s (cgExp funnam astexp s).state := by
  unfold cgExp
  split
  · exact Grows.refl s
  · refine grows_andThen (grows_cgOperand _ _ _ _) fun t => ?_
    split
    · exact Grows.refl t
    · exact grows_andThen (grows_cgOperand _ _ _ _) fun u => grows_cgBop _ u

theorem grows_cgCallArg (funnam : String) (astarg : AstArg) (s : CgState) :
    Grows s (cgCallArg funnam astarg s).state := by
  unfold cgCallArg
  split
  · dsimp only
    split
    · exact Grows.refl s
    · exact grows_appendCode _ _
  · exact grows_appendCode _ _
  · simp only [emitCode_eq_appendCode]
    exact (grows_cgLabel s).trans ((grows_emitData _ _).trans ((grows_emitData _ _).trans
      ((grows_appendCode _ _).trans (grows_appendCode _ _))))

theorem grows_cgCallArgs (funnam : String) (args : List AstArg) :
    ∀ (k : Nat) (s : CgState), Grows s (cgCallArgs funnam args k s).state := by
  intro k
  induction k with
  | zero => intro s; exact Grows.refl s
  | succ k ih =>
    intro s
    rw [cgCallArgs]
    split
    · exact Grows.refl s
    · exact grows_andThen (grows_cgCallArg _ _ _) (ih)

theorem grows_cgCall (funnam : String) (astcall : AstCall) (s : CgState) :
    Grows s (cgCall funnam astcall s).state := by
  unfold cgCall
  exact grows_andThen (grows_cgCallArgs _ _ _ _) fun t =>
    (grows_appendCode _ _).trans (grows_appendCode _ _)

theorem grows_cgAsg (funnam varnam : String) (s : CgState) :
    Grows s (cgAsg funnam varnam s).state := by
  unfold cgAsg
  simp only []
  split
  · exact Grows.refl s
  · exact grows_appendCode _ _

theorem grows_cgEpilog (funnam : String) (s : CgState) : Grows s (cgEpilog funnam s) := by
  rw [cgEpilog_eq]
  exact grows_appendCode _ _

theorem grows_cgWhile (funnam : String) (exp : AstExp) (blk : CgState → Res)
    (hblk : ∀ t, Grows t (blk t).state) (s : CgState) :
    Grows s (cgWhile funnam exp blk s).state := by
  unfold cgWhile
  simp only [emitCode_eq_appendCode]
  have hA : Grows s (cgLabel (appendCode [(cgLabel s).1 ++ ":"] (cgLabel s).2)).2 :=
    (grows_cgLabel s).trans ((grows_appendCode _ _).trans (grows_cgLabel _))
  refine hA.trans (grows_andThen (grows_cgExp _ _ _) fun t => ?_)
  have hB : Grows t (appendCode
      ["\t " ++ "BEQ" ++ " \t " ++ (cgLabel (appendCode [(cgLabel s).1 ++ ":"] (cgLabel s).2)).1]
      (appendCode ["\t " ++ "CMPI.L" ++ " \t " ++ "#0, D0"] t)) :=
    (grows_appendCode _ _).trans (grows_appendCode _ _)
  refine hB.trans (grows_andThen (hblk _) fun u => ?_)
  exact (grows_appendCode _ _).trans ((grows_appendCode _ _).trans (grows_appendCode _ _))

mutual
theorem grows_cgStm (funnam : String) :
    ∀ (aststm : AstStm) (s : CgState), Grows s (cgStm funnam aststm s).state
  | .ASTIF _ _, s => by rw [cgStm]; exact Grows.refl s
  | .ASTASG nam (.ASTCALL c), s => by
    rw [cgStm]
    exact grows_andThen (grows_cgCall _ _ _) (grows_cgAsg _ _)
  | .ASTASG nam (.ASTEXP e), s => by
    rw [cgStm]
    exact grows_andThen (grows_cgExp _ _ _) (grows_cgAsg _ _)
  | .ASTRET exp, s => by
    rw [cgStm]
    exact grows_andThen (grows_cgExp _ _ _) fun t => grows_cgEpilog _ t
  | .ASTWHILE exp block, s => by
    rw [cgStm]
    exact grows_cgWhile funnam exp _ (grows_cgBlock funnam block) s
  | .other _, s => by rw [cgStm]; exact Grows.refl s
theorem grows_cgBlock (funnam : String) :
    ∀ (stms : List AstStm) (s : CgState), Grows s (cgBlock funnam stms s).state
  | [], s => by rw [cgBlock]; exact Grows.refl s
  | aststm :: next, s => by
    rw [cgBlock]
    exact grows_andThen (grows_cgStm funnam aststm s) (grows_cgBlock funnam next)
end

theorem grows_cgStms (funnam : String) :
    ∀ (stms : List AstStm) (s : CgState), Grows s (cgStms funnam stms s).state := by
  intro stms
  induction stms with
  | nil => intro s; exact Grows.refl s
  | cons aststm next ih =>
    intro s
    rw [cgStms]
    exact grows_andThen (grows_cgStm funnam aststm s) ih

theorem grows_setLay (lay : Lay) (s : CgState) : Grows s { s with lay := lay } :=
  ⟨List.prefix_refl _, List.prefix_refl _, 0, rfl, by simp [labelsFrom]⟩

theorem grows_cgFun (layBuild : Lay → AstFun → Lay) (astfun : AstFun) (s : CgState) :
    Grows s (cgFun layBuild astfun s).state := by
  unfold cgFun cgBody cgProlog
  simp only [emitCode_eq_appendCode]
  exact (grows_setLay _ s).trans ((grows_appendCode _ _).trans (grows_cgStms _ _ _))

theorem grows_cgFuns (layBuild : Lay → AstFun → Lay) :
    ∀ (funs : List AstFun) (s : CgState), Grows s (cgFuns layBuild funs s).state := by
  intro funs
  induction funs with
  | nil => intro s; exact Grows.refl s
  | cons astfun next ih =>
    intro s
    rw [cgFuns]
    exact grows_andThen (grows_cgFun layBuild astfun s) ih

theorem grows_cgProg (layBuildIntrinsics : Lay → Lay) (layBuild : Lay → AstFun → Lay)
    (astprog : AstProg) (s : CgState) :
    Grows s (cgProg layBuildIntrinsics layBuild astprog s).state := by
  unfold cgProg
  simp only [emitCode_eq_appendCode]
  have hA : Grows s { appendCode ["\t " ++ "INCLUDE" ++ " \t " ++ "..\\..\\Tests\\io.X68"] s with
      lay := layBuildIntrinsics
        (appendCode ["\t " ++ "INCLUDE" ++ " \t " ++ "..\\..\\Tests\\io.X68"] s).lay } :=
    (grows_appendCode _ s).trans (grows_setLay _ _)
  exact hA.trans (grows_andThen (grows_cgFuns _ _ _) fun t => grows_appendCode _ t)

theorem Grows.code_eq {s t : CgState} (h : Grows s t) :
    t.emit.codeBuf = s.emit.codeBuf ++ codeSince s t := by
  obtain ⟨c, hc⟩ := h.code
  simp [codeSince, ← hc]

theorem Grows.issuedSince_eq {s t : CgState} (h : Grows s t) :
    ∃ j, t.labnum = labnumAfter s.labnum j ∧ issuedSince s t = labelsFrom s.labnum j := by
  obtain ⟨j, hj, hi⟩ := h.labels
  exact ⟨j, hj, by simp [issuedSince, hi]⟩

theorem labelsFrom_length (n : Int) (j : Nat) : (labelsFrom n j).length = j := by
  simp [labelsFrom]

theorem labelsFrom_eq_calls (s : CgState) (j : Nat) :
    labelsFrom s.labnum j = (List.range j).map fun i => (cgLabel (cgLabelTimes i s)).1 := by
  unfold labelsFrom
  apply List.map_congr_left
  intro i _
  rw [cgLabel_fst, cgLabelTimes_labnum]
  rfl

theorem labelsFrom_eq_map (n : Int) (j : Nat) (hlo : -2147483648 ≤ n)
    (hhi : n + 10 * (j : Int) ≤ 2147483647) :
    labelsFrom n j
      = ((List.range j).map fun i => n + 10 * (((i + 1 : Nat)) : Int)).map labelText := by
  unfold labelsFrom
  rw [List.map_map]
  apply List.map_congr_left
  intro i hi
  have hij : i < j := List.mem_range.mp hi
  simp only [Function.comp]
  rw [labnumAfter_of_le n (i + 1) hlo (by push_cast; omega)]
  rfl

theorem labelNumbers_pairwise (n : Int) (j : Nat) :
    ((List.range j).map fun i => n + 10 * (((i + 1 : Nat)) : Int)).Pairwise (· < ·) := by
  rw [List.pairwise_map]
  exact (List.pairwise_lt_range j).imp (by intro a b h; push_cast; omega)

theorem labelText_injective : Function.Injective labelText := fun _ _ h => labelText_inj h

theorem cgLabelTimes_issued (k : Nat) (s : CgState) :
    (cgLabelTimes k s).issued = s.issued ++ labelsFrom s.labnum k := by
  have h := (grows_cgLabelTimes k s).labels
  induction k with
  | zero => simp [cgLabelTimes, labelsFrom]
  | succ k ih =>
    have ih := ih (grows_cgLabelTimes k s).labels
    rw [show k + 1 = k + 1 from rfl, labelsFrom_add, ← List.append_assoc, ← ih, cgLabelTimes]
    show (cgLabelTimes k s).issued ++ [(cgLabel (cgLabelTimes k s)).1] = _
    rw [cgLabel_fst, cgLabelTimes_labnum]
    rfl

theorem cgLabelTimes_add (a b : Nat) (s : CgState) :
    cgLabelTimes a (cgLabelTimes b s) = cgLabelTimes (b + a) s := by
  induction a with
  | zero => rfl
  | succ a ih => rw [← Nat.add_assoc, cgLabelTimes, cgLabelTimes, ih]

theorem labelsFrom_get? (n : Int) (j i : Nat) (h : i < j) :
    (labelsFrom n j).get? i = some (labelText (labnumAfter n (i + 1))) := by
  unfold labelsFrom
  rw [List.get?_eq_getElem?, List.getElem?_map, List.getElem?_range h]
  rfl

/-! ## The label sequence of a run (C6) -/

theorem cgStm_retLt (funnam : String) (s : CgState) :
    ∃ c, cgStm funnam retLtExample s = .ok (appendCode c (cgLabelTimes 2 s)) := by
  apply Exists.intro
  rw [retLtExample, cgStm, cgExp]
  simp only []
  rw [cgOperand_loadable funnam (.ASTNUM 1) "D0" s rfl, andThen_ok,
    cgOperand_loadable funnam (.ASTNUM 2) "D1" _ rfl, andThen_ok,
    cgBop_relational .BOPLT _ rfl, andThen_ok, cgEpilog_eq]
  simp only [appendCode_lay, cgLabel_appendCode_fst, cgLabel_appendCode_snd,
    cgLabelTimes_appendCode, appendCode_appendCode]
  rfl

theorem cgStms_manyReturns (funnam : String) :
    ∀ (n : Nat) (s : CgState),
      ∃ c, cgStms funnam (List.replicate n retLtExample) s
        = .ok (appendCode c (cgLabelTimes (2 * n) s)) := by
  intro n
  induction n with
  | zero => intro s; exact ⟨[], by rw [List.replicate, cgStms]; simp [appendCode_nil, cgLabelTimes]⟩
  | succ n ih =>
    intro s
    obtain ⟨c1, h1⟩ := cgStm_retLt funnam s
    obtain ⟨c2, h2⟩ := ih (appendCode c1 (cgLabelTimes 2 s))
    refine ⟨c1 ++ c2, ?_⟩
    rw [List.replicate, cgStms, h1, andThen_ok, h2, cgLabelTimes_appendCode,
      appendCode_appendCode, cgLabelTimes_add]
    congr 3
    omega

theorem cgProg_manyReturns (n : Nat) (s : CgState) :
    issuedSince s (cgProg id layBuildExample (manyReturns n) s).state
      = labelsFrom s.labnum (2 * n) := by
  obtain ⟨c, hc⟩ := cgStms_manyReturns "main" n
    (appendCode ["main:"] (afterPreamble id s))
  have hprog : cgProg id layBuildExample (manyReturns n) s
      = .ok (appendCode ["\t END \t main"]
          (appendCode c (cgLabelTimes (2 * n) (appendCode ["main:"] (afterPreamble id s))))) := by
    have hf : cgFun layBuildExample (mainReturns n) (afterPreamble id s)
        = cgStms "main" (List.replicate n retLtExample)
            (appendCode ["main:"] (afterPreamble id s)) := rfl
    show (cgFuns layBuildExample [mainReturns n] (afterPreamble id s)).andThen _ = _
    rw [cgFuns, hf, hc, andThen_ok, cgFuns, andThen_ok]
    rfl
  rw [hprog]
  simp only [issuedSince, Res.state, appendCode_issued, cgLabelTimes_issued]
  show List.drop s.issued.length (s.issued ++ labelsFrom s.labnum (2 * n)) = _
  simp

theorem not_increasing_of_get? (l : List String) (i : Nat) (a b : Int)
    (h1 : l.get? i = some (labelText a)) (h2 : l.get? (i + 1) = some (labelText b))
    (hba : ¬ a < b) :
    ¬ ∃ nums : List Int, l = nums.map labelText ∧ nums.Pairwise (· < ·) := by
  rintro ⟨nums, hmap, hpw⟩
  rw [hmap, List.get?_eq_getElem?, List.getElem?_map] at h1 h2
  obtain ⟨x, hx, hlx⟩ := Option.map_eq_some'.mp h1
  obtain ⟨y, hy, hly⟩ := Option.map_eq_some'.mp h2
  have ex : x = a := labelText_inj hlx
  have ey : y = b := labelText_inj hly
  obtain ⟨hi1, e1⟩ := List.getElem?_eq_some.mp hx
  obtain ⟨hi2, e2⟩ := List.getElem?_eq_some.mp hy
  have hlt := List.pairwise_iff_getElem.mp hpw i (i + 1) hi1 hi2 (Nat.lt_succ_self i)
  rw [e1, e2, ex, ey] at hlt
  exact hba hlt

/-- C7: what `cgWhile` appends.  When the condition lowers (to `s1`) and the block
lowers (to `s2`), `cgWhile` returns, and the code it appended is, in this order: the
start label definition, the code of the condition, `CMPI.L #0, D0`,
`BEQ <exit label>`, the code of the block, `BRA <start label>`, the definition of
the exit label, and then that definition a second time (the sequence of the claim
ends after the first).  The start and exit labels are the two consecutive results
of `cgLabel` at entry, and they differ. -/
theorem cgWhile_code_order (funnam : String) (exp : AstExp) (block : List AstStm)
    (s s1 s2 : CgState)
    (hexp : cgExp funnam exp (appendCode [(cgLabel s).1 ++ ":"] (cgLabelTimes 2 s)) = .ok s1)
    (hblock : cgBlock funnam block
      (appendCode ["\t CMPI.L \t #0, D0", "\t BEQ \t " ++ (cgLabel (cgLabel s).2).1] s1)
        = .ok s2) :
    cgStm funnam (.ASTWHILE exp block) s
        = .ok (appendCode ["\t BRA \t " ++ (cgLabel s).1, (cgLabel (cgLabel s).2).1 ++ ":",
            (cgLabel (cgLabel s).2).1 ++ ":"] s2)
      ∧ codeSince s (cgStm funnam (.ASTWHILE exp block) s).state
        = ([(cgLabel s).1 ++ ":"]
            ++ codeSince (appendCode [(cgLabel s).1 ++ ":"] (cgLabelTimes 2 s)) s1
            ++ ["\t CMPI.L \t #0, D0", "\t BEQ \t " ++ (cgLabel (cgLabel s).2).1]
            ++ codeSince (appendCode ["\t CMPI.L \t #0, D0",
                "\t BEQ \t " ++ (cgLabel (cgLabel s).2).1] s1) s2
            ++ ["\t BRA \t " ++ (cgLabel s).1, (cgLabel (cgLabel s).2).1 ++ ":"])
          ++ [(cgLabel (cgLabel s).2).1 ++ ":"]
      ∧ (cgLabel s).1 ≠ (cgLabel (cgLabel s).2).1 := by
  have hstm : cgStm funnam (.ASTWHILE exp block) s
      = .ok (appendCode ["\t BRA \t " ++ (cgLabel s).1, (cgLabel (cgLabel s).2).1 ++ ":",
          (cgLabel (cgLabel s).2).1 ++ ":"] s2) := by
    rw [cgStm, cgWhile]
    simp only [emitCode_eq_appendCode, cgLabel_appendCode_snd, cgLabel_appendCode_fst,
      appendCode_appendCode, List.cons_append, List.nil_append]
    have hA : appendCode [(cgLabel s).1 ++ ":"] (cgLabel (cgLabel s).2).2
        = appendCode [(cgLabel s).1 ++ ":"] (cgLabelTimes 2 s) := rfl
    rw [hA, hexp, andThen_ok]
    have hB : appendCode ["\t " ++ "CMPI.L" ++ " \t " ++ "#0, D0",
          "\t " ++ "BEQ" ++ " \t " ++ (cgLabel (cgLabel s).2).1] s1
        = appendCode ["\t CMPI.L \t #0, D0", "\t BEQ \t " ++ (cgLabel (cgLabel s).2).1] s1 := rfl
    rw [hB, hblock, andThen_ok]
    rfl
  refine ⟨hstm, ?_, ?_⟩
  · have g1 := (grows_cgExp funnam exp (appendCode [(cgLabel s).1 ++ ":"] (cgLabelTimes 2 s)))
    rw [hexp] at g1
    have g2 := grows_cgBlock funnam block
      (appendCode ["\t CMPI.L \t #0, D0", "\t BEQ \t " ++ (cgLabel (cgLabel s).2).1] s1)
    rw [hblock] at g2
    have e1 := g1.code_eq
    have e2 := g2.code_eq
    simp only [Res.state, appendCode_codeBuf, cgLabelTimes_emit] at e1 e2
    generalize codeSince (appendCode [(cgLabel s).1 ++ ":"] (cgLabelTimes 2 s)) s1 = c1 at e1 ⊢
    generalize codeSince (appendCode ["\t CMPI.L \t #0, D0",
      "\t BEQ \t " ++ (cgLabel (cgLabel s).2).1] s1) s2 = c2 at e2 ⊢
    rw [hstm]
    simp only [codeSince, Res.state, appendCode_codeBuf]
    rw [e2, e1]
    simp [List.append_assoc]
  · intro h
    rw [cgLabel_fst, cgLabel_fst, cgLabel_snd_labnum] at h
    exact wrap32_add_ten_ne _ (labelText_inj h)

/-- C7 at `while (i < 5) { i = i + 1; }` in `main` from the initial state: start
label `L20`, exit label `L30`, the labels of the condition `L40` and `L50`. -/
theorem cgWhile_code_order_witness :
    codeSince (cgNew layExample)
        (cgStm "main" (.ASTWHILE condExample blockExample) (cgNew layExample)).state
      = ["L20:", "\t MOVE.L \t (-4,A6), D0", "\t MOVE.L \t #5, D1", "\t CMP.L \t D1, D0",
         "\t BLT \t L40", "\t CLR.L \t D0", "\t BRA \t L50", "L40:", "\t MOVE.L \t #1, D0",
         "L50:", "\t CMPI.L \t #0, D0", "\t BEQ \t L30", "\t MOVE.L \t (-4,A6), D0",
         "\t MOVE.L \t #1, D1", "\t ADD.L \t D1, D0", "\t MOVE.L \t D0, (-4,A6)",
         "\t BRA \t L20", "L30:", "L30:"] := by
  rw [(cgWhile_code_order "main" condExample blockExample (cgNew layExample)
    (cgExp "main" condExample
      (appendCode [(cgLabel (cgNew layExample)).1 ++ ":"]
        (cgLabelTimes 2 (cgNew layExample)))).state
    (cgBlock "main" blockExample
      (appendCode ["\t CMPI.L \t #0, D0",
          "\t BEQ \t " ++ (cgLabel (cgLabel (cgNew layExample)).2).1]
        (cgExp "main" condExample
          (appendCode [(cgLabel (cgNew layExample)).1 ++ ":"]
            (cgLabelTimes 2 (cgNew layExample)))).state)).state
    rfl rfl).2.1]
  decide

/-- C8 (the code differs): lowering `while (i < 5) { i = i + 1; }` from the initial
state, whose exit label is `L30`, appends the line `L30:` twice. -/
theorem cgWhile_exit_label_line_twice :
    (cgLabel (cgLabel (cgNew layExample)).2).1 = "L30" ∧
    (codeSince (cgNew layExample)
        (cgStm "main" (.ASTWHILE condExample blockExample) (cgNew layExample)).state).count
      "L30:" = 2 := by
  decide

/-! ## If and the prolog (C9, C10) -/

/-- C9 (the code differs): lowering `if (i < 5) { i = i + 1; }` returns normally and
appends nothing, although the condition and the block on their own lower to
non-empty code. -/
theorem cgIf_appends_nothing :
    (cgStm "main" (.ASTIF condExample blockExample) (cgNew layExample)).isOk = true ∧
    codeSince (cgNew layExample)
        (cgStm "main" (.ASTIF condExample blockExample) (cgNew layExample)).state = [] ∧
    issuedSince (cgNew layExample)
        (cgStm "main" (.ASTIF condExample blockExample) (cgNew layExample)).state = [] ∧
    (codeSince (cgNew layExample) (cgExp "main" condExample (cgNew layExample)).state).length
      = 9 ∧
    (codeSince (cgNew layExample) (cgBlock "main" blockExample (cgNew layExample)).state).length
      = 4 := by
  decide

/-- C10 (the code differs): `cgProlog` appends nothing, and for
`int main() { int i; return 0; }` the code of `cgFun` is the entry label followed
at once by the body code. -/
theorem cgProlog_appends_nothing :
    codeSince (cgNew layExample) (cgProlog "main" (cgNew layExample)) = [] ∧
    codeSince (cgNew layExample) (cgFun layBuildExample funExample (cgNew layExample)).state
      = ["main:", "\t MOVE.L \t #0, D0", "\t MOVEA.L \t A6, A7", "\t MOVEA.L \t (A6), A6",
         "\t ADDA.L \t #4, A7", "\t SIMHALT"] := by
  decide

/-! ## Fatal errors (C11, C12, C13, C14) -/

theorem occursIn_mid (a part b : String) : occursIn part (a ++ part ++ b) :=
  ⟨a.data, b.data, by simp [String.data_append]⟩

theorem cgNam_unresolved (funnam lex reg : String) (s : CgState)
    (hoff : s.lay.off (layFindVarParIdx s.lay funnam lex) = 0) :
    cgNam funnam lex reg s
      = .fatal (utDie5Str "cgNam" "cgFind failed, looking for symbol" lex "in function" funnam)
          s := by
  simp only [cgNam, hoff, if_true]

theorem report_utDie5Str_cgNam (funnam lex : String) :
    (utDie5Str "cgNam" "cgFind failed, looking for symbol" lex "in function" funnam).report
      = "\n\nERROR: cgNam: cgFind failed, looking for symbol " ++ lex
          ++ (" in function " ++ funnam ++ " \n\n") := by
  simp [utDie5Str, Fatal.report, String.append_assoc]

/-- C11: when the lookup of `(f, sym)` finds no row (`layFindVarParIdx` returns 0,
and row 0 holds the reserved offset 0), loading the name `sym` as an operand in `f`
ends the run in `cgNam` with a report in which both `sym` and `f` occur, and no
line is appended for `sym`: as left operand of an expression the state at the
abort is the entry state, as right operand (after a loadable left operand) it is
the entry state with only the load of the left operand. -/
theorem cgExp_unresolved_name_is_fatal (f sym : String) (bop : BOP) (s : CgState)
    (hidx : layFindVarParIdx s.lay f sym = 0) (hrow0 : s.lay.off 0 = 0) :
    ∃ e : Fatal,
      occursIn sym e.report ∧ occursIn f e.report
      ∧ (∀ reg, cgNam f sym reg s = .fatal e s)
      ∧ (∀ rhs, cgExp f ⟨some (.ASTNAM sym), bop, rhs⟩ s = .fatal e s)
      ∧ (∀ lhs, loadable s.lay f lhs = true →
          cgExp f ⟨some lhs, bop, some (.ASTNAM sym)⟩ s
            = .fatal e (appendCode [loadLine s.lay f lhs "D0"] s)) := by
  have hoff : s.lay.off (layFindVarParIdx s.lay f sym) = 0 := by rw [hidx, hrow0]
  refine ⟨utDie5Str "cgNam" "cgFind failed, looking for symbol" sym "in function" f,
    ?_, ?_, fun reg => cgNam_unresolved f sym reg s hoff, ?_, ?_⟩
  · rw [report_utDie5Str_cgNam]
    exact occursIn_mid _ _ _
  · rw [report_utDie5Str_cgNam, ← String.append_assoc, ← String.append_assoc]
    exact occursIn_mid _ _ _
  · intro rhs
    simp only [cgExp, cgOperand, cgNam_unresolved f sym "D0" s hoff, andThen_fatal]
  · intro lhs hl
    simp only [cgExp]
    rw [cgOperand_loadable f lhs "D0" s hl, andThen_ok]
    simp only [cgOperand]
    rw [cgNam_unresolved f sym "D1" _ (by simpa using hoff), andThen_fatal]

/-- C11 at the name `z` in the function `add2`: the report names both. -/
theorem cgExp_unresolved_name_is_fatal_witness :
    ∃ e : Fatal,
      occursIn "z" e.report ∧ occursIn "add2" e.report
      ∧ (∀ reg, cgNam "add2" "z" reg (cgNew layExample) = .fatal e (cgNew layExample))
      ∧ (∀ rhs, cgExp "add2" ⟨some (.ASTNAM "z"), .BOPADD, rhs⟩ (cgNew layExample)
          = .fatal e (cgNew layExample))
      ∧ (∀ lhs, loadable (cgNew layExample).lay "add2" lhs = true →
          cgExp "add2" ⟨some lhs, .BOPADD, some (.ASTNAM "z")⟩ (cgNew layExample)
            = .fatal e (appendCode [loadLine (cgNew layExample).lay "add2" lhs "D0"]
                (cgNew layExample))) :=
  cgExp_unresolved_name_is_fatal "add2" "z" .BOPADD (cgNew layExample) (by decide) (by decide)

/-- C14: for a statement whose kind tag is none of If, Assign, Return, While,
`cgStm` ends the run through `utDie2Str` with the report
`ERROR: cgStm: Invalid aststm->kind`, in the entry state: nothing is appended to
the code or the data stream. -/
theorem cgStm_unknown_kind_is_fatal (funnam : String) (kind : Nat) (s : CgState) :
    cgStm funnam (.other kind) s = .fatal (utDie2Str "cgStm" "Invalid aststm->kind") s
      ∧ (utDie2Str "cgStm" "Invalid aststm->kind").report
          = "\n\nERROR: cgStm: Invalid aststm->kind \n\n"
      ∧ codeSince s (cgStm funnam (.other kind) s).state = []
      ∧ dataSince s (cgStm funnam (.other kind) s).state = [] := by
  refine ⟨by rw [cgStm], by decide, ?_, ?_⟩
  · rw [cgStm]; simp [codeSince, Res.state]
  · rw [cgStm]; simp [dataSince, Res.state]

/-! ## Expressions (C18, C19) -/

theorem cgBop_arithmetic (bop : BOP) (s : CgState) (hop : bop.isArithmetic = true) :
    cgBop bop s = appendCode ["\t " ++ bop.arithMnemonic ++ " \t D1, D0"] s := by
  cases bop <;> first | (exact absurd hop (by decide)) | rfl

/-- C18: for an arithmetic operator and operands that are integer literals or names
with a non-zero layout offset, `cgExp` appends exactly three lines: the load of `x`
into D0, the load of `y` into D1, and `ADD.L`, `SUB.L` or `MULS` with the operands
`D1, D0`; the data stream, the label counter and the label history are unchanged. -/
theorem cgExp_arithmetic_three_lines (funnam : String) (x y : AstNns) (bop : BOP)
    (s : CgState) (hop : bop.isArithmetic = true)
    (hx : loadable s.lay funnam x = true) (hy : loadable s.lay funnam y = true) :
    cgExp funnam ⟨some x, bop, some y⟩ s
        = .ok (appendCode
            [loadLine s.lay funnam x "D0", loadLine s.lay funnam y "D1",
             "\t " ++ bop.arithMnemonic ++ " \t D1, D0"] s)
      ∧ (bop = .BOPADD → bop.arithMnemonic = "ADD.L")
      ∧ (bop = .BOPSUB → bop.arithMnemonic = "SUB.L")
      ∧ (bop = .BOPMUL → bop.arithMnemonic = "MULS") := by
  refine ⟨?_, fun h => by rw [h]; rfl, fun h => by rw [h]; rfl, fun h => by rw [h]; rfl⟩
  unfold cgExp
  simp only []
  rw [cgOperand_loadable funnam x "D0" s hx, andThen_ok,
    cgOperand_loadable funnam y "D1" _ (by simpa using hy), andThen_ok,
    cgBop_arithmetic bop _ hop]
  simp only [appendCode_lay, appendCode_appendCode, List.cons_append, List.nil_append]

/-- C18 at `a - 7` in `main`, with `a` at offset 8. -/
theorem cgExp_arithmetic_three_lines_witness :
    cgExp "main" ⟨some (.ASTNAM "a"), .BOPSUB, some (.ASTNUM 7)⟩ (cgNew layExample)
      = .ok (appendCode
          ["\t MOVE.L \t (8,A6), D0", "\t MOVE.L \t #7, D1", "\t SUB.L \t D1, D0"]
          (cgNew layExample)) :=
  (cgExp_arithmetic_three_lines "main" (.ASTNAM "a") (.ASTNUM 7) .BOPSUB (cgNew layExample)
    (by decide) (by decide) (by decide)).1

/-- C19: an expression whose left operand is absent is lowered to nothing: `cgExp`
returns the entry state itself (code stream, data stream, label counter, layout),
whatever the operator and the right operand are. -/
theorem cgExp_absent_lhs_is_noop (funnam : String) (bop : BOP) (rhs : Option AstNns)
    (s : CgState) :
    cgExp funnam ⟨none, bop, rhs⟩ s = .ok s := by
  rfl

/-- C13 (the code differs): for the operator values `BOPBAD`, `BOPNONE` and
`BOPDIV`, `cgBop` appends the single line `CMP.L D1, D0` and returns; lowering the
expressions `1 ! 2`, `1 2` (no operator) and `1 / 2` returns normally with the two
loads and that line. -/
theorem cgBop_invalid_operator_returns_normally :
    codeSince (cgNew layExample) (cgBop .BOPBAD (cgNew layExample)) = ["\t CMP.L \t D1, D0"]
    ∧ codeSince (cgNew layExample) (cgBop .BOPNONE (cgNew layExample))
        = ["\t CMP.L \t D1, D0"]
    ∧ codeSince (cgNew layExample) (cgBop .BOPDIV (cgNew layExample))
        = ["\t CMP.L \t D1, D0"]
    ∧ (cgExp "main" ⟨some (.ASTNUM 1), .BOPBAD, some (.ASTNUM 2)⟩ (cgNew layExample)).isOk
        = true
    ∧ (cgExp "main" ⟨some (.ASTNUM 1), .BOPNONE, some (.ASTNUM 2)⟩ (cgNew layExample)).isOk
        = true
    ∧ (cgExp "main" ⟨some (.ASTNUM 1), .BOPDIV, some (.ASTNUM 2)⟩ (cgNew layExample)).isOk
        = true
    ∧ codeSince (cgNew layExample)
        (cgExp "main" ⟨some (.ASTNUM 1), .BOPBAD, some (.ASTNUM 2)⟩ (cgNew layExample)).state
        = ["\t MOVE.L \t #1, D0", "\t MOVE.L \t #2, D1", "\t CMP.L \t D1, D0"] := by
  decide

theorem get?_append_mid {α : Type} (pre : List α) (x : α) (post : List α) :
    (pre ++ [x] ++ post).get? pre.length = some x := by
  induction pre with
  | nil => rfl
  | cons p pre ih => simpa using ih

theorem get?_append_post {α : Type} (pre : List α) (x : α) (post : List α) (j : Nat) :
    (pre ++ [x] ++ post).get? (pre.length + 1 + j) = post.get? j := by
  induction pre with
  | nil => simp [Nat.add_comm 1 j]
  | cons p pre ih =>
    have h : (p :: pre).length + 1 + j = (pre.length + 1 + j) + 1 := by simp; omega
    rw [h]
    simpa using ih

/-! ## The layout is left alone by expressions and calls -/

theorem lay_andThen {s : CgState} {r : Res} {f : CgState → Res} (h1 : r.state.lay = s.lay)
    (h2 : ∀ t, (f t).state.lay = t.lay) : (r.andThen f).state.lay = s.lay := by
  cases r with
  | ok t => exact (h2 t).trans h1
  | fatal e t => exact h1

theorem lay_cgBop (bop : BOP) (s : CgState) : (cgBop bop s).lay = s.lay := by
  cases bop <;> rfl

theorem lay_cgOperand (funnam : String) (nns : AstNns) (reg : String) (s : CgState) :
    (cgOperand funnam nns reg s).state.lay = s.lay := by
  cases nns with
  | ASTNAM lex =>
    simp only [cgOperand, cgNam]
    split <;> rfl
  | ASTNUM val => rfl
  | ASTSTR txt => rfl

theorem lay_cgExp (funnam : String) (astexp : AstExp) (s : CgState) :
    (cgExp funnam astexp s).state.lay = s.lay := by
  unfold cgExp
  split
  · rfl
  · refine lay_andThen (lay_cgOperand _ _ _ _) fun t => ?_
    split
    · rfl
    · exact lay_andThen (lay_cgOperand _ _ _ _) fun u => lay_cgBop _ u

theorem lay_cgCallArg (funnam : String) (astarg : AstArg) (s : CgState) :
    (cgCallArg funnam astarg s).state.lay = s.lay := by
  unfold cgCallArg
  split
  · dsimp only
    split <;> rfl
  · rfl
  · rfl

theorem lay_cgCallArgs (funnam : String) (args : List AstArg) :
    ∀ (k : Nat) (s : CgState), (cgCallArgs funnam args k s).state.lay = s.lay := by
  intro k
  induction k with
  | zero => intro s; rfl
  | succ k ih =>
    intro s
    rw [cgCallArgs]
    split
    · rfl
    · exact lay_andThen (lay_cgCallArg _ _ _) ih

theorem lay_cgCall (funnam : String) (astcall : AstCall) (s : CgState) :
    (cgCall funnam astcall s).state.lay = s.lay := by
  unfold cgCall
  exact lay_andThen (lay_cgCallArgs _ _ _ _) fun t => rfl

theorem lay_cgEoc (funnam : String) (eoc : AstEoc) (s : CgState) :
    (cgEoc funnam eoc s).state.lay = s.lay := by
  cases eoc with
  | ASTCALL c => exact lay_cgCall funnam c s
  | ASTEXP e => exact lay_cgExp funnam e s

theorem grows_cgEoc (funnam : String) (eoc : AstEoc) (s : CgState) :
    Grows s (cgEoc funnam eoc s).state := by
  cases eoc with
  | ASTCALL c => exact grows_cgCall funnam c s
  | ASTEXP e => exact grows_cgExp funnam e s

theorem cgStm_asg_eq (funnam nam : String) (eoc : AstEoc) (s : CgState) :
    cgStm funnam (.ASTASG nam eoc) s = (cgEoc funnam eoc s).andThen (cgAsg funnam nam) := by
  cases eoc <;> (rw [cgStm]; rfl)

/-! ## Unresolved names in stores and calls (C12) -/

theorem cgAsg_no_row (funnam varnam : String) (s : CgState)
    (hidx : layFindVarParIdx s.lay funnam varnam = 0) :
    cgAsg funnam varnam s = .fatal (.assertFailed "cg.c" 31 "cgAsg" "varidx != 0") s := by
  simp only [cgAsg, hidx, if_true]

theorem cgCallArg_no_row (funnam lex : String) (s : CgState)
    (hidx : layFindVarParIdx s.lay funnam lex = 0) :
    cgCallArg funnam ⟨.ASTNAM lex⟩ s
      = .fatal (.assertFailed "cg.c" 200 "cgCall" "argidx != 0") s := by
  simp only [cgCallArg, hidx, if_true]

theorem cgCallArg_fatal (funnam : String) (astarg : AstArg) (s t : CgState) (e : Fatal)
    (h : cgCallArg funnam astarg s = .fatal e t) :
    e = .assertFailed "cg.c" 200 "cgCall" "argidx != 0" := by
  obtain ⟨nns⟩ := astarg
  cases nns with
  | ASTNAM lex =>
    simp only [cgCallArg] at h
    split at h
    · injection h with he _
      exact he.symm
    · cases h
  | ASTNUM val => cases h
  | ASTSTR txt => cases h

theorem cgCallArgs_no_row (funnam lex : String) (pre post : List AstArg) :
    ∀ (j : Nat) (s : CgState), j ≤ post.length →
      layFindVarParIdx s.lay funnam lex = 0 →
      cgCallArgs funnam (pre ++ [⟨.ASTNAM lex⟩] ++ post) (pre.length + 1 + j) s
        = .fatal (.assertFailed "cg.c" 200 "cgCall" "argidx != 0")
            (cgCallArgs funnam post j s).state := by
  intro j
  induction j with
  | zero =>
    intro s _ hidx
    show cgCallArgs funnam (pre ++ [⟨.ASTNAM lex⟩] ++ post) (pre.length + 1) s = .fatal _ s
    rw [cgCallArgs]
    simp only [astFindArg, get?_append_mid, cgCallArg_no_row funnam lex s hidx, andThen_fatal]
  | succ j ih =>
    intro s hj hidx
    have hlt : j < post.length := hj
    have hget : post.get? j = some (post.get ⟨j, hlt⟩) := List.get?_eq_get hlt
    have hpost : cgCallArgs funnam post (j + 1) s
        = (cgCallArg funnam (post.get ⟨j, hlt⟩) s).andThen (cgCallArgs funnam post j) := by
      rw [cgCallArgs]
      simp only [astFindArg, hget]
    rw [hpost, show pre.length + 1 + (j + 1) = (pre.length + 1 + j) + 1 from rfl, cgCallArgs]
    simp only [astFindArg, get?_append_post, hget]
    have hlay := lay_cgCallArg funnam (post.get ⟨j, hlt⟩) s
    cases h : cgCallArg funnam (post.get ⟨j, hlt⟩) s with
    | ok s1 =>
      rw [h] at hlay
      rw [andThen_ok, andThen_ok]
      exact ih s1 (Nat.le_of_lt hlt) (by rw [show s1.lay = s.lay from hlay]; exact hidx)
    | fatal e s1 =>
      rw [andThen_fatal, andThen_fatal, cgCallArg_fatal funnam _ s s1 e h]
      rfl

/-- C15: for an assignment `v = rhs` in `f` where `v` has a layout row, with offset
`o`, and the right-hand side lowers (by `cgCall` when it is a call, by `cgExp`
otherwise) to the state `s1`, `cgStm` returns `s1` with exactly one more line, the
store `MOVE.L D0, (o,A6)`: the appended code is the code of the right-hand side
and then, as the last line, the store. -/
theorem cgStm_assign_stores_last (f v : String) (eoc : AstEoc) (s s1 : CgState)
    (hv : layFindVarParIdx s.lay f v ≠ 0) (hrhs : cgEoc f eoc s = .ok s1) :
    cgStm f (.ASTASG v eoc) s
        = .ok (appendCode
            ["\t MOVE.L \t D0, (" ++ toString (s.lay.off (layFindVarParIdx s.lay f v))
              ++ ",A6)"] s1)
      ∧ codeSince s (cgStm f (.ASTASG v eoc) s).state
        = codeSince s s1
          ++ ["\t MOVE.L \t D0, (" ++ toString (s.lay.off (layFindVarParIdx s.lay f v))
              ++ ",A6)"] := by
  have hlay : s1.lay = s.lay := by
    have := lay_cgEoc f eoc s
    rwa [hrhs] at this
  have hstm : cgStm f (.ASTASG v eoc) s
      = .ok (appendCode
          ["\t MOVE.L \t D0, (" ++ toString (s.lay.off (layFindVarParIdx s.lay f v))
            ++ ",A6)"] s1) := by
    rw [cgStm_asg_eq, hrhs, andThen_ok]
    simp only [cgAsg, hlay, hv, if_false, emitCode_eq_appendCode]
    rfl
  refine ⟨hstm, ?_⟩
  have g := grows_cgEoc f eoc s
  rw [hrhs] at g
  have e1 := g.code_eq
  simp only [Res.state] at e1
  rw [hstm]
  generalize codeSince s s1 = c1 at e1 ⊢
  simp only [codeSince, Res.state, appendCode_codeBuf]
  rw [e1]
  simp

/-- C15 at `i = i + 1` and at `i = f(a)` in `main`, with `i` at offset -4. -/
theorem cgStm_assign_stores_last_witness :
    codeSince (cgNew layExample)
        (cgStm "main" (.ASTASG "i" (.ASTEXP ⟨some (.ASTNAM "i"), .BOPADD, some (.ASTNUM 1)⟩))
          (cgNew layExample)).state
      = ["\t MOVE.L \t (-4,A6), D0", "\t MOVE.L \t #1, D1", "\t ADD.L \t D1, D0",
         "\t MOVE.L \t D0, (-4,A6)"]
    ∧ codeSince (cgNew layExample)
        (cgStm "main" (.ASTASG "i" (.ASTCALL ⟨"f", [⟨.ASTNAM "a"⟩]⟩)) (cgNew layExample)).state
      = ["\t MOVE.L \t (8,A6), -(A7)", "\t BSR \tf", "\t ADD.L \t#4, A7",
         "\t MOVE.L \t D0, (-4,A6)"] := by
  constructor
  · rw [(cgStm_assign_stores_last "main" "i"
      (.ASTEXP ⟨some (.ASTNAM "i"), .BOPADD, some (.ASTNUM 1)⟩) (cgNew layExample)
      (cgEoc "main" (.ASTEXP ⟨some (.ASTNAM "i"), .BOPADD, some (.ASTNUM 1)⟩)
        (cgNew layExample)).state (by decide) rfl).2]
    decide
  · rw [(cgStm_assign_stores_last "main" "i" (.ASTCALL ⟨"f", [⟨.ASTNAM "a"⟩]⟩)
      (cgNew layExample)
      (cgEoc "main" (.ASTCALL ⟨"f", [⟨.ASTNAM "a"⟩]⟩) (cgNew layExample)).state
      (by decide) rfl).2]
    decide

/-! ## String arguments (C17) -/

@[simp] theorem appendData_codeBuf (l : List String) (s : CgState) :
    (appendData l s).emit.codeBuf = s.emit.codeBuf := rfl

@[simp] theorem appendData_dataBuf (l : List String) (s : CgState) :
    (appendData l s).emit.dataBuf = s.emit.dataBuf ++ l := rfl

/-- C17: for a string-literal argument with text `t`, the argument step of `cgCall`
makes exactly one call of `cgLabel`, whose result `Lk` (number `labnum + 10` as an
`int`) is the data label; it appends to the data stream the two lines `Lk:` and
`DC.B 't',0`, and to the code stream `LEA Lk, A0` and then the one push
`MOVE.L A0, -(A7)`.  Whatever the arguments are, when they are all pushed `cgCall`
appends `BSR <callee>` and the cleanup `ADD.L #4*n, A7` for the `n` arguments of
the call, a string argument counting as one of them. -/
theorem cgCall_string_argument (f t : String) (s : CgState) :
    cgCallArg f ⟨.ASTSTR t⟩ s
        = .ok (appendCode ["\t LEA \t " ++ (cgLabel s).1 ++ ", A0", "\t MOVE.L \t A0, -(A7)"]
            (appendData [(cgLabel s).1 ++ ":", "\t DC.B \t '" ++ t ++ "',0"] (cgLabel s).2))
      ∧ (cgLabel s).1 = labelText (wrap32 (s.labnum + 10))
      ∧ (∀ (callee : String) (args : List AstArg) (u : CgState),
          cgCallArgs f args args.length s = .ok u →
          cgCall f ⟨callee, args⟩ s
            = .ok (appendCode ["\t BSR \t" ++ callee,
                "\t ADD.L \t#" ++ toString (4 * args.length) ++ ", A7"] u)) := by
  refine ⟨?_, rfl, ?_⟩
  · simp only [cgCallArg, emitCode_eq_appendCode, emitData, appendCode_appendCode]
    simp [appendCode, appendData, cgLabel, String.append_assoc]
  · intro callee args u hu
    unfold cgCall
    simp only [astCountArgs, hu, andThen_ok, emitCode_eq_appendCode, appendCode_appendCode]
    rfl

/-- C17 at `says("hi", 7)` called from `main` in the initial state: the data label
is `L20`, and the cleanup is 8 bytes for the two arguments. -/
theorem cgCall_string_argument_witness :
    cgCallArg "main" ⟨.ASTSTR "hi"⟩ (cgNew layExample)
        = .ok (appendCode ["\t LEA \t L20, A0", "\t MOVE.L \t A0, -(A7)"]
            (appendData ["L20:", "\t DC.B \t 'hi',0"] (cgLabel (cgNew layExample)).2))
      ∧ codeSince (cgNew layExample) (cgCall "main" callExample (cgNew layExample)).state
        = ["\t MOVE.L \t #7, -(A7)", "\t LEA \t L20, A0", "\t MOVE.L \t A0, -(A7)",
           "\t BSR \tsays", "\t ADD.L \t#8, A7"]
      ∧ dataSince (cgNew layExample) (cgCall "main" callExample (cgNew layExample)).state
        = ["L20:", "\t DC.B \t 'hi',0"] := by
  refine ⟨(cgCall_string_argument "main" "hi" (cgNew layExample)).1, ?_, ?_⟩
  · rw [show callExample = ⟨"says", [⟨.ASTSTR "hi"⟩, ⟨.ASTNUM 7⟩]⟩ from rfl,
      (cgCall_string_argument "main" "hi" (cgNew layExample)).2.2 "says"
        [⟨.ASTSTR "hi"⟩, ⟨.ASTNUM 7⟩]
        (cgCallArgs "main" [⟨.ASTSTR "hi"⟩, ⟨.ASTNUM 7⟩] 2 (cgNew layExample)).state rfl]
    decide
  · decide

/-! ## Statement sequences (C20) -/

theorem andThen_eq_ok {r : Res} {f : CgState → Res} {u : CgState} (h : r.andThen f = .ok u) :
    ∃ t, r = .ok t ∧ f t = .ok u := by
  cases r with
  | ok t => exact ⟨t, rfl, h⟩
  | fatal e t => cases h

theorem andThen_assoc (r : Res) (f g : CgState → Res) :
    (r.andThen f).andThen g = r.andThen fun t => (f t).andThen g := by
  cases r <;> rfl

theorem andThen_ok_right (r : Res) : r.andThen .ok = r := by
  cases r <;> rfl

theorem cgBlock_eq_cgStms (funnam : String) :
    ∀ (stms : List AstStm) (s : CgState), cgBlock funnam stms s = cgStms funnam stms s := by
  intro stms
  induction stms with
  | nil => intro s; rw [cgBlock, cgStms]
  | cons aststm next ih =>
    intro s
    rw [cgBlock, cgStms]
    congr 1
    funext t
    exact ih t

theorem foldl_andThen_cgStm (funnam : String) :
    ∀ (stms : List AstStm) (r : Res),
      stms.foldl (fun r aststm => r.andThen (cgStm funnam aststm)) r
        = r.andThen (cgStms funnam stms) := by
  intro stms
  induction stms with
  | nil =>
    intro r
    have h : cgStms funnam [] = Res.ok := by funext t; rw [cgStms]
    rw [List.foldl_nil, h, andThen_ok_right]
  | cons aststm next ih =>
    intro r
    have h : cgStms funnam (aststm :: next)
        = fun t => (cgStm funnam aststm t).andThen (cgStms funnam next) := by
      funext t; rw [cgStms]
    rw [List.foldl_cons, ih, h, andThen_assoc]

theorem cgStms_code (funnam : String) :
    ∀ (stms : List AstStm) (s u : CgState), cgStms funnam stms s = .ok u →
      u.emit.codeBuf = s.emit.codeBuf ++ (stmCodes funnam stms s).flatten := by
  intro stms
  induction stms with
  | nil =>
    intro s u h
    rw [cgStms] at h
    injection h with h
    simp [stmCodes, h]
  | cons aststm next ih =>
    intro s u h
    rw [cgStms] at h
    obtain ⟨t, ht, hu⟩ := andThen_eq_ok h
    have g := grows_cgStm funnam aststm s
    have e1 := g.code_eq
    rw [ih t u hu, stmCodes, List.flatten_cons, ← List.append_assoc, ← e1, ht]
    rfl

/-- C20: `cgStms` and `cgBlock` lower a statement sequence in declaration order:
each is the left-to-right pass that lowers every statement from the state (streams,
label counter) the statement before it returned; the two return the same outcome
from the same sequence and state; and when the sequence lowers without error the
appended code is the concatenation of the code of the first statement, then the
second, …, then the last. -/
theorem cgStms_cgBlock_declaration_order (funnam : String) (stms : List AstStm)
    (s : CgState) :
    cgStms funnam stms s = lowerSequence funnam stms s
      ∧ cgBlock funnam stms s = cgStms funnam stms s
      ∧ (∀ u, cgStms funnam stms s = .ok u →
          codeSince s u = (stmCodes funnam stms s).flatten
          ∧ codeSince s (cgBlock funnam stms s).state = (stmCodes funnam stms s).flatten) := by
  refine ⟨?_, cgBlock_eq_cgStms funnam stms s, ?_⟩
  · rw [lowerSequence, foldl_andThen_cgStm, andThen_ok]
  · intro u hu
    have hc := cgStms_code funnam stms s u hu
    have h1 : codeSince s u = (stmCodes funnam stms s).flatten := by
      simp [codeSince, hc]
    refine ⟨h1, ?_⟩
    rw [cgBlock_eq_cgStms, hu]
    exact h1

/-- C20 at `i = 1; while (i < 5) { i = i + 1; }` in `main` from the initial state:
the code of the assignment, then the code of the loop, whose labels continue the
count (`L20`, `L30`, then `L40`, `L50` in its condition). -/
theorem cgStms_cgBlock_declaration_order_witness :
    codeSince (cgNew layExample) (cgStms "main" stmsExample (cgNew layExample)).state
      = ["\t MOVE.L \t #1, D0", "\t MOVE.L \t D0, (-4,A6)"]
        ++ ["L20:", "\t MOVE.L \t (-4,A6), D0", "\t MOVE.L \t #5, D1", "\t CMP.L \t D1, D0",
            "\t BLT \t L40", "\t CLR.L \t D0", "\t BRA \t L50", "L40:",
            "\t MOVE.L \t #1, D0", "L50:", "\t CMPI.L \t #0, D0", "\t BEQ \t L30",
            "\t MOVE.L \t (-4,A6), D0", "\t MOVE.L \t #1, D1", "\t ADD.L \t D1, D0",
            "\t MOVE.L \t D0, (-4,A6)", "\t BRA \t L20", "L30:", "L30:"]
    ∧ cgBlock "main" stmsExample (cgNew layExample)
      = cgStms "main" stmsExample (cgNew layExample) := by
  refine ⟨?_, (cgStms_cgBlock_declaration_order "main" stmsExample (cgNew layExample)).2.1⟩
  rw [((cgStms_cgBlock_declaration_order "main" stmsExample (cgNew layExample)).2.2
    (cgStms "main" stmsExample (cgNew layExample)).state rfl).1]
  decide

/-! ## Programs (C16) -/

theorem codeSince_cgFun_head (layBuild : Lay → AstFun → Lay) (astfun : AstFun) (s : CgState) :
    (codeSince s (cgFun layBuild astfun s).state).head? = some (astfun.nam ++ ":") := by
  have g : Grows (appendCode [astfun.nam ++ ":"] { s with lay := layBuild s.lay astfun })
      (cgFun layBuild astfun s).state := by
    unfold cgFun cgBody cgProlog
    simp only [emitCode_eq_appendCode]
    exact grows_cgStms _ _ _
  obtain ⟨c, hc⟩ := g.code
  simp only [appendCode_codeBuf] at hc
  simp [codeSince, ← hc]

theorem funCodes_heads (layBuild : Lay → AstFun → Lay) :
    ∀ (funs : List AstFun) (s : CgState),
      List.Forall₂ (fun astfun code => code.head? = some (astfun.nam ++ ":")) funs
        (funCodes layBuild funs s) := by
  intro funs
  induction funs with
  | nil => intro s; exact List.Forall₂.nil
  | cons astfun next ih =>
    intro s
    exact List.Forall₂.cons (codeSince_cgFun_head layBuild astfun s) (ih _)

theorem cgFuns_code (layBuild : Lay → AstFun → Lay) :
    ∀ (funs : List AstFun) (s u : CgState), cgFuns layBuild funs s = .ok u →
      u.emit.codeBuf = s.emit.codeBuf ++ (funCodes layBuild funs s).flatten := by
  intro funs
  induction funs with
  | nil =>
    intro s u h
    rw [cgFuns] at h
    injection h with h
    simp [funCodes, h]
  | cons astfun next ih =>
    intro s u h
    rw [cgFuns] at h
    obtain ⟨t, ht, hu⟩ := andThen_eq_ok h
    have g := grows_cgFun layBuild astfun s
    have e1 := g.code_eq
    rw [ih t u hu, funCodes, List.flatten_cons, ← List.append_assoc, ← e1, ht]
    rfl

/-- C16: `cgProg` emits the `INCLUDE` line, puts the intrinsics into the layout,
and only then lowers the functions.  When they lower without error (to the state
`u`), `cgProg` returns `u` with `END main` appended, and the code it appended is the
`INCLUDE` line, then the code of every function in declaration order, each
starting with its entry label line `<name>:`, then the line `END main`. -/
theorem cgProg_code_layout (layBuildIntrinsics : Lay → Lay) (layBuild : Lay → AstFun → Lay)
    (astprog : AstProg) (s u : CgState)
    (hfuns : cgFuns layBuild astprog.funs (afterPreamble layBuildIntrinsics s) = .ok u) :
    cgProg layBuildIntrinsics layBuild astprog s = .ok (appendCode ["\t END \t main"] u)
      ∧ codeSince s (cgProg layBuildIntrinsics layBuild astprog s).state
        = ["\t INCLUDE \t ..\\..\\Tests\\io.X68"]
          ++ (funCodes layBuild astprog.funs (afterPreamble layBuildIntrinsics s)).flatten
          ++ ["\t END \t main"]
      ∧ List.Forall₂ (fun astfun code => code.head? = some (astfun.nam ++ ":")) astprog.funs
          (funCodes layBuild astprog.funs (afterPreamble layBuildIntrinsics s))
      ∧ (afterPreamble layBuildIntrinsics s).lay = layBuildIntrinsics s.lay
      ∧ (afterPreamble layBuildIntrinsics s).emit.codeBuf
          = s.emit.codeBuf ++ ["\t INCLUDE \t ..\\..\\Tests\\io.X68"] := by
  have hprog : cgProg layBuildIntrinsics layBuild astprog s
      = .ok (appendCode ["\t END \t main"] u) := by
    unfold cgProg
    simp only [emitCode_eq_appendCode]
    have hA : ({ appendCode ["\t " ++ "INCLUDE" ++ " \t " ++ "..\\..\\Tests\\io.X68"] s with
        lay := layBuildIntrinsics
          (appendCode ["\t " ++ "INCLUDE" ++ " \t " ++ "..\\..\\Tests\\io.X68"] s).lay }
          : CgState)
        = afterPreamble layBuildIntrinsics s := rfl
    rw [hA, hfuns, andThen_ok]
    rfl
  refine ⟨hprog, ?_, funCodes_heads layBuild _ _, rfl, rfl⟩
  have hc := cgFuns_code layBuild astprog.funs _ u hfuns
  have hpre : (afterPreamble layBuildIntrinsics s).emit.codeBuf
      = s.emit.codeBuf ++ ["\t INCLUDE \t ..\\..\\Tests\\io.X68"] := rfl
  rw [hprog]
  generalize funCodes layBuild astprog.funs (afterPreamble layBuildIntrinsics s) = fc at hc ⊢
  simp only [codeSince, Res.state, appendCode_codeBuf, hc, hpre]
  simp

/-- C16 at the program of `add2` and `main` (each `return 0;`), from the initial
state. -/
theorem cgProg_code_layout_witness :
    codeSince (cgNew layExample)
        (cgProg id layBuildExample progExample (cgNew layExample)).state
      = ["\t INCLUDE \t ..\\..\\Tests\\io.X68"]
        ++ (["add2:", "\t MOVE.L \t #0, D0", "\t MOVEA.L \t A6, A7", "\t MOVEA.L \t (A6), A6",
             "\t ADDA.L \t #4, A7", "\t RTS"]
            ++ ["main:", "\t MOVE.L \t #0, D0", "\t MOVEA.L \t A6, A7",
                "\t MOVEA.L \t (A6), A6", "\t ADDA.L \t #4, A7", "\t SIMHALT"])
        ++ ["\t END \t main"] := by
  rw [(cgProg_code_layout id layBuildExample progExample (cgNew layExample)
    (cgFuns layBuildExample progExample.funs (afterPreamble id (cgNew layExample))).state
    rfl).2.1]
  decide

/-! ## Branch targets are defined (C21) -/

theorem branchTarget?_of_third (line : String) (c : Char) (rest : List Char)
    (h : line.data = '\t' :: ' ' :: c :: rest) (hc : c ≠ 'B') : branchTarget? line = none := by
  have hc2 : ¬ 'B' = c := fun e => hc e.symm
  simp [branchTarget?, h, dropLeading?, hc2]

theorem branchTarget?_of_first (line : String) (c : Char) (rest : List Char)
    (h : line.data = c :: rest) (hc : c ≠ '\t') : branchTarget? line = none := by
  have hc2 : ¬ '\t' = c := fun e => hc e.symm
  simp [branchTarget?, h, dropLeading?, hc2]

theorem branchTarget?_labelDef (n : Int) : branchTarget? (labelText n ++ ":") = none :=
  branchTarget?_of_first _ 'L' _ rfl (by decide)

theorem branchTarget?_cgLabelDef (s : CgState) :
    branchTarget? ((cgLabel s).1 ++ ":") = none :=
  branchTarget?_labelDef (wrap32 (s.labnum + 10))

theorem branchTarget?_BSR (callee : String) :
    branchTarget? ("\t " ++ "BSR" ++ " \t" ++ callee) = none := by
  have h : ("\t " ++ "BSR" ++ " \t" ++ callee).data
      = '\t' :: ' ' :: 'B' :: 'S' :: 'R' :: ' ' :: '\t' :: callee.data := rfl
  simp [branchTarget?, h, dropLeading?]

theorem branchTarget?_branch (x y : Char) (target : String) (hxy : ¬ (x = 'S' ∧ y = 'R')) :
    branchTarget? (String.mk ('\t' :: ' ' :: 'B' :: x :: y :: ' ' :: '\t' :: ' ' :: target.data))
      = some target := by
  simp [branchTarget?, dropLeading?, hxy]

theorem branchTarget?_BRA (target : String) :
    branchTarget? ("\t BRA \t " ++ target) = some target :=
  branchTarget?_branch 'R' 'A' target (by decide)

theorem branchTarget?_BEQ (target : String) :
    branchTarget? ("\t BEQ \t " ++ target) = some target :=
  branchTarget?_branch 'E' 'Q' target (by decide)

theorem branchTargets_append (c1 c2 : List String) :
    branchTargets (c1 ++ c2) = branchTargets c1 ++ branchTargets c2 := by
  simp [branchTargets, List.filterMap_append]

theorem branchTargets_cons_none (line : String) (c : List String)
    (h : branchTarget? line = none) : branchTargets (line :: c) = branchTargets c := by
  simp [branchTargets, List.filterMap_cons, h]

theorem branchTargets_cons_some (line target : String) (c : List String)
    (h : branchTarget? line = some target) :
    branchTargets (line :: c) = target :: branchTargets c := by
  simp [branchTargets, List.filterMap_cons, h]

theorem targetsDefined_of_plain (c : List String) (h : branchTargets c = []) :
    targetsDefined c := by
  intro target ht
  rw [h] at ht
  cases ht

theorem targetsDefined_append (c1 c2 : List String) (h1 : targetsDefined c1)
    (h2 : targetsDefined c2) : targetsDefined (c1 ++ c2) := by
  intro target ht
  rw [branchTargets_append, List.mem_append] at ht
  rcases ht with ht | ht
  · exact List.mem_append_left _ (h1 target ht)
  · exact List.mem_append_right _ (h2 target ht)

theorem AddsPlain.plainRefl (s : CgState) : AddsPlain s s := ⟨[], by simp, rfl⟩

theorem AddsPlain.plainTrans {s t u : CgState} (h1 : AddsPlain s t) (h2 : AddsPlain t u) :
    AddsPlain s u := by
  obtain ⟨c1, e1, p1⟩ := h1
  obtain ⟨c2, e2, p2⟩ := h2
  exact ⟨c1 ++ c2, by rw [e2, e1, List.append_assoc], by rw [branchTargets_append, p1, p2]; rfl⟩

theorem AddsClosed.closedRefl (s : CgState) : AddsClosed s s :=
  ⟨[], by simp, targetsDefined_of_plain _ rfl⟩

theorem AddsClosed.closedTrans {s t u : CgState} (h1 : AddsClosed s t) (h2 : AddsClosed t u) :
    AddsClosed s u := by
  obtain ⟨c1, e1, p1⟩ := h1
  obtain ⟨c2, e2, p2⟩ := h2
  exact ⟨c1 ++ c2, by rw [e2, e1, List.append_assoc], targetsDefined_append _ _ p1 p2⟩

theorem AddsPlain.toClosed {s t : CgState} (h : AddsPlain s t) : AddsClosed s t := by
  obtain ⟨c, e, p⟩ := h
  exact ⟨c, e, targetsDefined_of_plain c p⟩

theorem plain_appendCode (line : String) (s : CgState) (h : branchTarget? line = none) :
    AddsPlain s (appendCode [line] s) :=
  ⟨[line], rfl, by rw [branchTargets_cons_none _ _ h]; rfl⟩

theorem plain_emitData (line : String) (s : CgState) : AddsPlain s (emitData line s) :=
  ⟨[], by simp [emitData], rfl⟩

theorem plain_cgLabel (s : CgState) : AddsPlain s (cgLabel s).2 :=
  ⟨[], by simp [cgLabel], rfl⟩

theorem plain_andThen {s : CgState} {r : Res} {f : CgState → Res} (h1 : AddsPlain s r.state)
    (h2 : ∀ t, AddsPlain t (f t).state) : AddsPlain s (r.andThen f).state := by
  cases r with
  | ok t => exact h1.plainTrans (h2 t)
  | fatal e t => exact h1

theorem closed_andThen {s : CgState} {r : Res} {f : CgState → Res} (h1 : AddsClosed s r.state)
    (h2 : ∀ t, AddsClosed t (f t).state) : AddsClosed s (r.andThen f).state := by
  cases r with
  | ok t => exact h1.closedTrans (h2 t)
  | fatal e t => exact h1

theorem plain_cgOperand (funnam : String) (nns : AstNns) (reg : String) (s : CgState) :
    AddsPlain s (cgOperand funnam nns reg s).state := by
  cases nns with
  | ASTNAM lex =>
    simp only [cgOperand, cgNam]
    split
    · exact AddsPlain.plainRefl s
    · exact plain_appendCode _ _ (branchTarget?_of_third _ 'M' _ rfl (by decide))
  | ASTNUM val => exact plain_appendCode _ _ (branchTarget?_of_third _ 'M' _ rfl (by decide))
  | ASTSTR txt => exact AddsPlain.plainRefl s

theorem branchTarget?_Bcc (bop : BOP) (target : String) (hop : bop.isRelational = true) :
    branchTarget? ("\t " ++ bop.mnemonic ++ " \t " ++ target) = some target := by
  cases bop <;> first
    | (exact absurd hop (by decide))
    | rfl

theorem closed_cgBop (bop : BOP) (s : CgState) : AddsClosed s (cgBop bop s) := by
  by_cases hrel : bop.isRelational = true
  · rw [cgBop_relational bop s hrel]
    refine ⟨_, by rw [appendCode_codeBuf, cgLabelTimes_emit], ?_⟩
    intro target ht
    rw [branchTargets_cons_none _ _ (by decide),
      branchTargets_cons_some _ _ _ (branchTarget?_Bcc bop _ hrel),
      branchTargets_cons_none _ _ (by decide),
      branchTargets_cons_some _ _ _ (branchTarget?_BRA _),
      branchTargets_cons_none _ _ (branchTarget?_cgLabelDef _),
      branchTargets_cons_none _ _ (by decide),
      branchTargets_cons_none _ _ (branchTarget?_cgLabelDef _)] at ht
    simp only [branchTargets, List.filterMap_nil, List.mem_cons, List.mem_nil_iff,
      or_false] at ht
    rcases ht with ht | ht <;> (rw [ht]; simp)
  · have hp : AddsPlain s (cgBop bop s) := by
      cases bop <;> first
        | (exact absurd rfl hrel)
        | exact plain_appendCode _ _ (by decide)
    exact hp.toClosed

theorem closed_cgExp (funnam : String) (astexp : AstExp) (s : CgState) :
    AddsClosed s (cgExp funnam astexp s).state := by
  unfold cgExp
  split
  · exact AddsClosed.closedRefl s
  · refine closed_andThen (plain_cgOperand _ _ _ _).toClosed fun t => ?_
    split
    · exact AddsClosed.closedRefl t
    · exact closed_andThen (plain_cgOperand _ _ _ _).toClosed fun u => closed_cgBop _ u

theorem plain_cgCallArg (funnam : String) (astarg : AstArg) (s : CgState) :
    AddsPlain s (cgCallArg funnam astarg s).state := by
  unfold cgCallArg
  split
  · dsimp only
    split
    · exact AddsPlain.plainRefl s
    · exact plain_appendCode _ _ (branchTarget?_of_third _ 'M' _ rfl (by decide))
  · exact plain_appendCode _ _ (branchTarget?_of_third _ 'M' _ rfl (by decide))
  · simp only [emitCode_eq_appendCode]
    exact (plain_cgLabel s).plainTrans ((plain_emitData _ _).plainTrans
      ((plain_emitData _ _).plainTrans
        ((plain_appendCode _ _ (branchTarget?_of_third _ 'L' _ rfl (by decide))).plainTrans
          (plain_appendCode _ _ (by decide)))))

theorem plain_cgCallArgs (funnam : String) (args : List AstArg) :
    ∀ (k : Nat) (s : CgState), AddsPlain s (cgCallArgs funnam args k s).state := by
  intro k
  induction k with
  | zero => intro s; exact AddsPlain.plainRefl s
  | succ k ih =>
    intro s
    rw [cgCallArgs]
    split
    · exact AddsPlain.plainRefl s
    · exact plain_andThen (plain_cgCallArg _ _ _) ih

theorem plain_cgCall (funnam : String) (astcall : AstCall) (s : CgState) :
    AddsPlain s (cgCall funnam astcall s).state := by
  unfold cgCall
  simp only [emitCode_eq_appendCode]
  exact plain_andThen (plain_cgCallArgs _ _ _ _) fun t =>
    (plain_appendCode _ _ (branchTarget?_BSR _)).plainTrans
      (plain_appendCode _ _ (branchTarget?_of_third _ 'A' _ rfl (by decide)))

theorem plain_cgAsg (funnam varnam : String) (s : CgState) :
    AddsPlain s (cgAsg funnam varnam s).state := by
  unfold cgAsg
  simp only []
  split
  · exact AddsPlain.plainRefl s
  · exact plain_appendCode _ _ (branchTarget?_of_third _ 'M' _ rfl (by decide))

theorem plain_cgEpilog (funnam : String) (s : CgState) : AddsPlain s (cgEpilog funnam s) := by
  unfold cgEpilog
  simp only [emitCode_eq_appendCode]
  split
  · exact (plain_appendCode _ _ (by decide)).plainTrans
      ((plain_appendCode _ _ (by decide)).plainTrans
        ((plain_appendCode _ _ (by decide)).plainTrans (plain_appendCode _ _ (by decide))))
  · exact (plain_appendCode _ _ (by decide)).plainTrans
      ((plain_appendCode _ _ (by decide)).plainTrans
        ((plain_appendCode _ _ (by decide)).plainTrans (plain_appendCode _ _ (by decide))))

theorem closed_cgEoc (funnam : String) (eoc : AstEoc) (s : CgState) :
    AddsClosed s (cgEoc funnam eoc s).state := by
  cases eoc with
  | ASTCALL c => exact (plain_cgCall funnam c s).toClosed
  | ASTEXP e => exact closed_cgExp funnam e s

theorem cgWhile_eq_ok (funnam : String) (exp : AstExp) (blk : CgState → Res)
    (s u : CgState) (h : cgWhile funnam exp blk s = .ok u) :
    ∃ s1 s2,
      cgExp funnam exp (appendCode [(cgLabel s).1 ++ ":"] (cgLabelTimes 2 s)) = .ok s1
      ∧ blk (appendCode ["\t CMPI.L \t #0, D0", "\t BEQ \t " ++ (cgLabel (cgLabel s).2).1] s1)
          = .ok s2
      ∧ u = appendCode ["\t BRA \t " ++ (cgLabel s).1, (cgLabel (cgLabel s).2).1 ++ ":",
            (cgLabel (cgLabel s).2).1 ++ ":"] s2 := by
  rw [cgWhile] at h
  simp only [emitCode_eq_appendCode, cgLabel_appendCode_snd, cgLabel_appendCode_fst,
    appendCode_appendCode, List.cons_append, List.nil_append] at h
  obtain ⟨s1, h1, h⟩ := andThen_eq_ok h
  obtain ⟨s2, h2, h⟩ := andThen_eq_ok h
  injection h with h
  exact ⟨s1, s2, h1, h2, h.symm⟩

theorem targetsDefined_while (a b : String) (c1 c2 : List String)
    (ha : branchTarget? (a ++ ":") = none) (hb : branchTarget? (b ++ ":") = none)
    (h1 : targetsDefined c1) (h2 : targetsDefined c2) :
    targetsDefined ([a ++ ":"] ++ c1 ++ ["\t CMPI.L \t #0, D0", "\t BEQ \t " ++ b] ++ c2
      ++ ["\t BRA \t " ++ a, b ++ ":", b ++ ":"]) := by
  intro target ht
  simp only [branchTargets_append, List.mem_append] at ht
  rw [branchTargets_cons_none _ _ ha, branchTargets_cons_none _ _ (by decide),
    branchTargets_cons_some _ _ _ (branchTarget?_BEQ b),
    branchTargets_cons_some _ _ _ (branchTarget?_BRA a), branchTargets_cons_none _ _ hb,
    branchTargets_cons_none _ _ hb] at ht
  simp only [branchTargets, List.filterMap_nil, List.mem_cons, List.mem_nil_iff, or_false,
    false_or] at ht
  rcases ht with ((ht | ht) | ht) | ht
  · have := h1 target ht
    simp [this]
  · rw [ht]; simp
  · have := h2 target ht
    simp [this]
  · rw [ht]; simp

theorem closed_cgWhile (funnam : String) (exp : AstExp) (blk : CgState → Res)
    (hblk : ∀ t v, blk t = .ok v → AddsClosed t v) (s u : CgState)
    (h : cgWhile funnam exp blk s = .ok u) : AddsClosed s u := by
  obtain ⟨s1, s2, h1, h2, rfl⟩ := cgWhile_eq_ok funnam exp blk s u h
  have g1 := closed_cgExp funnam exp (appendCode [(cgLabel s).1 ++ ":"] (cgLabelTimes 2 s))
  rw [h1] at g1
  obtain ⟨c1, e1, p1⟩ := g1
  obtain ⟨c2, e2, p2⟩ := hblk _ _ h2
  simp only [Res.state, appendCode_codeBuf, cgLabelTimes_emit] at e1 e2
  refine ⟨[(cgLabel s).1 ++ ":"] ++ c1
      ++ ["\t CMPI.L \t #0, D0", "\t BEQ \t " ++ (cgLabel (cgLabel s).2).1] ++ c2
      ++ ["\t BRA \t " ++ (cgLabel s).1, (cgLabel (cgLabel s).2).1 ++ ":",
          (cgLabel (cgLabel s).2).1 ++ ":"], ?_,
    targetsDefined_while _ _ c1 c2 (branchTarget?_cgLabelDef _) (branchTarget?_cgLabelDef _)
      p1 p2⟩
  rw [appendCode_codeBuf, e2, e1]
  simp [List.append_assoc]

mutual
theorem closed_cgStm (funnam : String) :
    ∀ (aststm : AstStm) (s u : CgState), cgStm funnam aststm s = .ok u → AddsClosed s u
  | .ASTIF _ _, s, u, h => by
    rw [cgStm, cgIf] at h
    injection h with h
    rw [← h]
    exact AddsClosed.closedRefl s
  | .ASTASG nam eoc, s, u, h => by
    rw [cgStm_asg_eq] at h
    obtain ⟨t, ht, hu⟩ := andThen_eq_ok h
    have g1 := closed_cgEoc funnam eoc s
    have g2 := plain_cgAsg funnam nam t
    rw [ht] at g1
    rw [hu] at g2
    exact g1.closedTrans g2.toClosed
  | .ASTRET exp, s, u, h => by
    rw [cgStm] at h
    obtain ⟨t, ht, hu⟩ := andThen_eq_ok h
    have g1 := closed_cgExp funnam exp s
    rw [ht] at g1
    injection hu with hu
    rw [← hu]
    exact g1.closedTrans (plain_cgEpilog funnam t).toClosed
  | .ASTWHILE exp block, s, u, h => by
    rw [cgStm] at h
    exact closed_cgWhile funnam exp _ (closed_cgBlock funnam block) s u h
  | .other _, s, u, h => by
    rw [cgStm] at h
    cases h
theorem closed_cgBlock (funnam : String) :
    ∀ (stms : List AstStm) (s u : CgState), cgBlock funnam stms s = .ok u → AddsClosed s u
  | [], s, u, h => by
    rw [cgBlock] at h
    injection h with h
    rw [← h]
    exact AddsClosed.closedRefl s
  | aststm :: next, s, u, h => by
    rw [cgBlock] at h
    obtain ⟨t, ht, hu⟩ := andThen_eq_ok h
    exact (closed_cgStm funnam aststm s t ht).closedTrans (closed_cgBlock funnam next t u hu)
end

/-- C21: when a statement lowers without error, from any state (any label counter),
every label named by a branch line (`BRA` or a conditional branch `Bcc`) of the code
that `cgStm` appended has its definition line `<label>:` in that same appended
code. -/
theorem cgStm_branch_targets_defined (funnam : String) (aststm : AstStm) (s u : CgState)
    (h : cgStm funnam aststm s = .ok u) :
    ∀ line ∈ codeSince s u, ∀ target, branchTarget? line = some target →
      (target ++ ":") ∈ codeSince s u := by
  obtain ⟨c, e, p⟩ := closed_cgStm funnam aststm s u h
  have hc : codeSince s u = c := by simp [codeSince, e]
  rw [hc]
  intro line hline target ht
  apply p
  simp only [branchTargets, List.mem_filterMap]
  exact ⟨line, hline, ht⟩

/-- C21 at `while (i < 5) { i = i + 1; }` in `main` from the initial state: the
branch lines name `L40`, `L50`, `L30`, `L20`, and each has its definition line. -/
theorem cgStm_branch_targets_defined_witness :
    (∀ line ∈ codeSince (cgNew layExample)
          (cgStm "main" (.ASTWHILE condExample blockExample) (cgNew layExample)).state,
        ∀ target, branchTarget? line = some target →
          (target ++ ":") ∈ codeSince (cgNew layExample)
            (cgStm "main" (.ASTWHILE condExample blockExample) (cgNew layExample)).state)
      ∧ branchTargets (codeSince (cgNew layExample)
          (cgStm "main" (.ASTWHILE condExample blockExample) (cgNew layExample)).state)
        = ["L40", "L50", "L30", "L20"] :=
  ⟨cgStm_branch_targets_defined "main" (.ASTWHILE condExample blockExample)
      (cgNew layExample)
      (cgStm "main" (.ASTWHILE condExample blockExample) (cgNew layExample)).state rfl,
   by decide⟩

end SubC
